import Mathlib

set_option linter.unnecessarySeqFocus false

/-!
Verification development for the `scraperflow` library (a Node.js scraping
orchestrator).  The definitions below are a shallow embedding, translated
from the TypeScript sources:

* `src/scraper-flow.ts` — the `ScraperFlow` class: cycle handlers for the
  pagination strategies, the flow orchestrator (`_startFlowOrchestrator`),
  the fail counter (`_initFailCounter`) and `_computeInterval`;
* `src/utils/validate-options.ts` — `validateOptions` and the defaults;
* `src/utils/cycle-summary-helper.ts` — `CycleSummaryHelper`;
* `src/utils/sleep.ts` — `sleep`.

JavaScript numbers are embedded as `JSNum` (NaN, the two infinities, or a
finite rational); JavaScript runtime values that flow through the option
validator are embedded as `JSVal`.  Asynchronous control flow is embedded
as an explicit task queue: every `await` in the source becomes a queued
continuation task, and one `orchStep` runs one synchronous block exactly as
the source would between two suspension points.
-/

/-! ## JavaScript number and value primitives -/

/-- A JavaScript number: NaN, `Infinity`, `-Infinity`, or a finite value
(embedded as a rational). -/
inductive JSNum : Type
  | nan
  | posInf
  | negInf
  | fin (q : ℚ)
deriving DecidableEq, Repr

/-- `Number.isFinite`. -/
def JSNum.isFinite : JSNum → Bool
  | .fin _ => true
  | _ => false

/-- `Math.trunc` on a finite value: round toward zero. -/
def jsTrunc (q : ℚ) : ℤ :=
  if 0 ≤ q then ⌊q⌋ else ⌈q⌉

/-- `Math.max(0, Math.trunc(x))` on a JS number, as used by the option
validator and `_computeInterval`.  `trunc` maps NaN to NaN and preserves
the infinities; `max(0, -Infinity) = 0`. -/
def jsMaxZeroTrunc : JSNum → JSNum
  | .nan => .nan
  | .posInf => .posInf
  | .negInf => .fin 0
  | .fin q => .fin (max 0 (jsTrunc q))

/-- JS `typeof` result tags (only the tags the embedded code inspects). -/
inductive JSType : Type
  | tUndefined
  | tObject
  | tBoolean
  | tNumber
  | tString
  | tFunction
deriving DecidableEq, Repr

/-- An element of a JavaScript array option value.  The validators only
inspect array elements through `typeof`, so nested arrays are embedded as
`obj` (both have `typeof "object"`). -/
inductive JSAtom : Type
  | undefined
  | null
  | bool (b : Bool)
  | num (x : JSNum)
  | str (s : String)
  | fn (tag : ℕ)
  | obj
deriving DecidableEq, Repr

/-- A JavaScript runtime value as it flows through option validation.
Functions are opaque and identified by a tag; plain records are opaque. -/
inductive JSVal : Type
  | undefined
  | null
  | bool (b : Bool)
  | num (x : JSNum)
  | str (s : String)
  | fn (tag : ℕ)
  | arr (elems : List JSAtom)
  | obj
deriving DecidableEq, Repr

/-- JS `typeof`.  Note `typeof null = "object"` and
`typeof [] = "object"`. -/
def jsTypeof : JSVal → JSType
  | .undefined => .tUndefined
  | .null => .tObject
  | .bool _ => .tBoolean
  | .num _ => .tNumber
  | .str _ => .tString
  | .fn _ => .tFunction
  | .arr _ => .tObject
  | .obj => .tObject

/-- Whether a JS value is a plain record (`Record<string, unknown>`):
`null`, arrays and functions are not records. -/
def jsIsRecord : JSVal → Bool
  | .obj => true
  | _ => false

/-- JS division of two non-negative naturals (`a / b`): `0 / 0 = NaN`,
`a / 0 = Infinity` for `a > 0`. -/
def jsDivNat (a b : ℕ) : JSNum :=
  if b = 0 then (if a = 0 then .nan else .posInf) else .fin ((a : ℚ) / b)

/-- JS truthiness of a number (`NaN` and `0` are falsy). -/
def JSNum.truthy : JSNum → Bool
  | .nan => false
  | .fin q => q ≠ 0
  | _ => true

/-- JS `x || 0`. -/
def jsOrZero (x : JSNum) : JSNum :=
  if x.truthy then x else .fin 0

/-! ## Fail counter (`ScraperFlow._initFailCounter`)

The fail counter closes over a timeline of page failures (`undefined`
entries are separators inserted by `success()`), a total counter and a
consecutive counter.  `Infinity` limits are embedded as `none`. -/

/-- State of the counter created by `_initFailCounter`. -/
structure FailCounterState : Type where
  timeline : List (Option ℕ)
  totalPageFails : ℕ
  consecutivePageFails : ℕ
deriving DecidableEq, Repr

/-- The initial fail-counter state. -/
def initFailCounter : FailCounterState := ⟨[], 0, 0⟩

/-- The error handling policy fields the fail counter reads
(`options.errorHandlingPolicy`).  `none` embeds `Infinity`. -/
structure EHPolicy : Type where
  retryLimit : ℕ
  retryDistinctFlows : Bool
  skipPageIfPossible : Bool
  maxTotalPageFails : Option ℕ
  maxConsecutivePageFails : Option ℕ
deriving DecidableEq, Repr

/-- `n <= m` where `m` may be `Infinity` (`none`). -/
def leOrInf (n : ℕ) (m : Option ℕ) : Bool :=
  match m with
  | none => true
  | some k => n ≤ k

/-- `canSkipPage` from `_initFailCounter`:
`skipPageIfPossible && totalPageFails <= maxTotalPageFails &&
consecutivePageFails <= maxConsecutivePageFails`. -/
def canSkipPage (pol : EHPolicy) (fc : FailCounterState) : Bool :=
  pol.skipPageIfPossible && leOrInf fc.totalPageFails pol.maxTotalPageFails
    && leOrInf fc.consecutivePageFails pol.maxConsecutivePageFails

/-- `success()`: push a separator if the last timeline entry is a page,
then reset the consecutive counter. -/
def failCounterSuccess (fc : FailCounterState) : FailCounterState :=
  let tl := match fc.timeline.getLast? with
    | some (some _) => fc.timeline ++ [none]
    | _ => fc.timeline
  { fc with timeline := tl, consecutivePageFails := 0 }

/-- `fail(page?)`: push the page on the timeline (when given), increment
both counters, and return `!canSkipPage()` (i.e. `true` when no more pages
may be skipped) together with the new state. -/
def failCounterFail (pol : EHPolicy) (fc : FailCounterState) (page : Option ℕ) :
    Bool × FailCounterState :=
  let tl := match page with
    | some p => fc.timeline ++ [some p]
    | none => fc.timeline
  let fc' : FailCounterState :=
    { timeline := tl
      totalPageFails := fc.totalPageFails + 1
      consecutivePageFails := fc.consecutivePageFails + 1 }
  (!canSkipPage pol fc', fc')

/-- The recomputation loop of `complete(lastPage)`: walk the timeline,
counting only failed pages `<= lastPage`; a separator (or the end of the
list) flushes the current consecutive run into the maximum.  Returns
`(totalPageFails, consecutivePageFails)`. -/
def completeScan (lastPage : ℕ) : List (Option ℕ) → ℕ → ℕ → ℕ → ℕ × ℕ
  | [], total, cmax, _cur => (total, cmax)
  | [x], total, cmax, cur =>
    let step : ℕ × ℕ := match x with
      | some p => if p ≤ lastPage then (total + 1, cur + 1) else (total, cur)
      | none => (total, cur)
    (step.1, max cmax step.2)
  | x :: rest, total, cmax, cur =>
    match x with
    | some p =>
      let step : ℕ × ℕ := if p ≤ lastPage then (total + 1, cur + 1) else (total, cur)
      completeScan lastPage rest step.1 cmax step.2
    | none => completeScan lastPage rest total (max cmax cur) 0

/-- `complete(lastPage?)`: when a last page is supplied, recompute both
counters from the timeline restricted to pages `<= lastPage`; then return
`canSkipPage()`. -/
def failCounterComplete (pol : EHPolicy) (fc : FailCounterState)
    (lastPage : Option ℕ) : Bool :=
  match lastPage with
  | none => canSkipPage pol fc
  | some l =>
    let scanned := completeScan l fc.timeline 0 0 0
    canSkipPage pol
      { timeline := fc.timeline
        totalPageFails := scanned.1
        consecutivePageFails := scanned.2 }

/-! ## Summary accumulator (`CycleSummaryHelper`)

Each average category holds a `(sum, count)` pair; `summarize` divides and
applies `|| 0` (JS), which maps the `0 / 0 = NaN` of an empty category to
`0`. -/

/-- The three average categories of `stats.timings.avg`. -/
inductive TimingKind : Type
  | all
  | successful
  | failed
deriving DecidableEq, Repr

/-- The three `(sum, count)` accumulator pairs. -/
structure TimingsAcc : Type where
  allPair : ℕ × ℕ
  successfulPair : ℕ × ℕ
  failedPair : ℕ × ℕ
deriving DecidableEq, Repr

/-- The accumulators start at `[0, 0]`. -/
def initTimingsAcc : TimingsAcc := ⟨(0, 0), (0, 0), (0, 0)⟩

/-- Read the pair of one category. -/
def TimingsAcc.pair (acc : TimingsAcc) : TimingKind → ℕ × ℕ
  | .all => acc.allPair
  | .successful => acc.successfulPair
  | .failed => acc.failedPair

/-- `addAvgTiming(type, time)`: `timing[0] += time; timing[1]++`. -/
def addAvgTiming (kind : TimingKind) (time : ℕ) (acc : TimingsAcc) : TimingsAcc :=
  match kind with
  | .all => { acc with allPair := (acc.allPair.1 + time, acc.allPair.2 + 1) }
  | .successful =>
    { acc with successfulPair := (acc.successfulPair.1 + time, acc.successfulPair.2 + 1) }
  | .failed => { acc with failedPair := (acc.failedPair.1 + time, acc.failedPair.2 + 1) }

/-- The `avg` computation of `summarize()` for one category:
`timing[0] / timing[1] || 0`. -/
def summarizeAvg (acc : TimingsAcc) (kind : TimingKind) : JSNum :=
  jsOrZero (jsDivNat (acc.pair kind).1 (acc.pair kind).2)

/-- Fold a list of recorded `(category, time)` samples through
`addAvgTiming`, as the cycle handlers do during a cycle. -/
def recordTimings (events : List (TimingKind × ℕ)) : TimingsAcc :=
  events.foldl (fun acc e => addAvgTiming e.1 e.2 acc) initTimingsAcc

/-- The arithmetic mean the specification describes: sum over count, `0`
for an empty sample list. -/
def meanSpec (ts : List ℕ) : ℚ :=
  if ts = [] then 0 else (ts.sum : ℚ) / ts.length

/-- The samples recorded for one category. -/
def samplesOf (events : List (TimingKind × ℕ)) (k : TimingKind) : List ℕ :=
  (events.filter (fun e => e.1 = k)).map Prod.snd

/-! ## Sleeper (`sleep(ms, signal?)`)

Real time is abstracted into which of the two wake-up sources fires first.
The abort listener is attached with `{ once: true }`, so it detaches
itself when it fires; the timeout path removes it explicitly. -/

/-- Which event resolves a pending `sleep` first. -/
inductive SleepFirstEvent : Type
  | timerFires
  | signalAborts
deriving DecidableEq, Repr

/-- Observable outcome of one `sleep(ms, signal)` call. -/
structure SleepResult : Type where
  /-- The boolean the promise resolves with (`true` = cancelled). -/
  cancelled : Bool
  /-- Whether it resolved synchronously, before any timer was started. -/
  resolvedImmediately : Bool
  /-- Whether the abort listener is still attached after resolution. -/
  listenerStillAttached : Bool
  /-- Whether the timeout is still pending after resolution. -/
  timerStillPending : Bool
deriving DecidableEq, Repr

/-- `sleep` with a signal: if the signal is already aborted, resolve `true`
immediately (no listener, no timer).  Otherwise attach the once-listener
and start the timer; the timer path resolves `false` and removes the
listener, the abort path resolves `true` (the once-listener detaches
itself) and clears the timer. -/
def sleepRun (alreadyAborted : Bool) (ev : SleepFirstEvent) : SleepResult :=
  if alreadyAborted then
    { cancelled := true
      resolvedImmediately := true
      listenerStillAttached := false
      timerStillPending := false }
  else
    match ev with
    | .timerFires =>
      { cancelled := false
        resolvedImmediately := false
        listenerStillAttached := false
        timerStillPending := false }
    | .signalAborts =>
      { cancelled := true
        resolvedImmediately := false
        listenerStillAttached := false
        timerStillPending := false }

/-! ## Option validation (`validateOptions` and the `ScraperFlow` constructor)

Each `case` of the validating proxy's `set` trap becomes one function
returning an optional warning key together with the validated value.
`validateOptions` applies them in the key order of `DEFAULT_OPTIONS`
(which is the assignment order of the source) and concatenates the
warnings. -/

/-- The pagination type enumeration (`PaginationType`). -/
inductive PaginationType : Type
  | noneKind
  | totalPages
  | hasMore
  | cursor
  | listKind
deriving DecidableEq, Repr

/-- A validated `interval` / `cycleInterval` value: a non-negative scalar,
a non-negative pair, or a user function (opaque tag). -/
inductive VInterval : Type
  | scalar (n : ℕ)
  | range (a b : ℕ)
  | func (tag : ℕ)
deriving DecidableEq, Repr

/-- `DEFAULT_OPTIONS.interval = [1000, 2000]`. -/
def defaultInterval : VInterval := .range 1000 2000

/-- Interval strategy values. -/
inductive IntervalStrategy : Type
  | dynamic
  | fixed
deriving DecidableEq, Repr

/-- A validated context initializer: the user function or the default
`() => ({})`. -/
inductive VInitFun : Type
  | userFn (tag : ℕ)
  | defaultFn
deriving DecidableEq, Repr

/-- A validated `logger` value: a boolean flag or an array (the source
accepts any array verbatim). -/
inductive VLogger : Type
  | flag (b : Bool)
  | cats (elems : List JSAtom)
deriving DecidableEq, Repr

/-- `DEFAULT_OPTIONS.logger = ['validationWarning', 'generalError']`. -/
def defaultLogger : VLogger := .cats [.str "validationWarning", .str "generalError"]

/-- The pair acceptance check of the interval case: the first two array
elements must both be finite numbers; they are then coerced with
`max(0, trunc)`. -/
def intervalPairOk (es : List JSAtom) : Option (ℕ × ℕ) :=
  match es.getD 0 .undefined, es.getD 1 .undefined with
  | .num (.fin qa), .num (.fin qb) =>
    some ((max 0 (jsTrunc qa)).toNat, (max 0 (jsTrunc qb)).toNat)
  | _, _ => none

/-- The `interval` / `cycleInterval` case.  For the `interval` field the
default is pre-set, so an invalid or undefined value leaves
`[1000, 2000]`; for `cycleInterval` it leaves `undefined` (`none`).
Finite numbers are coerced with `max(0, trunc)`, functions are kept, and a
pair is accepted when its first two elements are finite numbers. -/
def validateIntervalField (isIntervalField : Bool) (v : JSVal) :
    Option String × Option VInterval :=
  let dflt : Option VInterval := if isIntervalField then some defaultInterval else none
  let key := if isIntervalField then "options.interval" else "options.cycleInterval"
  match v with
  | .num (.fin q) => (none, some (.scalar (max 0 (jsTrunc q)).toNat))
  | .num _ => (some key, dflt)
  | .fn t => (none, some (.func t))
  | .arr es =>
    match intervalPairOk es with
    | some ab => (none, some (.range ab.1 ab.2))
    | none => (some key, dflt)
  | .undefined => (none, dflt)
  | _ => (some key, dflt)

/-- The `intervalStrategy` / `cycleIntervalStrategy` case. -/
def validateStrategyField (isCycleField : Bool) (v : JSVal) :
    Option String × IntervalStrategy :=
  let dflt : IntervalStrategy := if isCycleField then .fixed else .dynamic
  let key := if isCycleField then "options.cycleIntervalStrategy"
             else "options.intervalStrategy"
  match v with
  | .str s =>
    if s = "dynamic" then (none, .dynamic)
    else if s = "fixed" then (none, .fixed)
    else (some key, dflt)
  | .undefined => (none, dflt)
  | _ => (some key, dflt)

/-- The `concurrency` case: a finite number is truncated and clamped to at
least 1; anything else warns (unless undefined) and falls back to 1. -/
def validateConcurrency (v : JSVal) : Option String × ℕ :=
  match v with
  | .num (.fin q) => (none, (max 1 (jsTrunc q)).toNat)
  | .num _ => (some "options.concurrency", 1)
  | .undefined => (none, 1)
  | _ => (some "options.concurrency", 1)

/-- The `paginationStart` case: a finite number is truncated verbatim
(negative values are accepted); default 1. -/
def validatePaginationStart (v : JSVal) : Option String × ℤ :=
  match v with
  | .num (.fin q) => (none, jsTrunc q)
  | .num _ => (some "options.paginationStart", 1)
  | .undefined => (none, 1)
  | _ => (some "options.paginationStart", 1)

/-- The boolean cases (`resetThisContext`, `resetFlowContext`,
`removeContextForRedundantFlows`, `paginationPrefetch`, and the nested
policy booleans). -/
def validateBoolField (key : String) (dflt : Bool) (v : JSVal) : Option String × Bool :=
  match v with
  | .bool b => (none, b)
  | .undefined => (none, dflt)
  | _ => (some key, dflt)

/-- The `initThisContext` / `initFlowContext` case: a function is kept,
anything else (except undefined) warns and falls back to the default
`() => ({})`. -/
def validateInitFun (key : String) (v : JSVal) : Option String × VInitFun :=
  match v with
  | .fn t => (none, .userFn t)
  | .undefined => (none, .defaultFn)
  | _ => (some key, .defaultFn)

/-- The function cases (`fetchHandler`, the four resolvers,
`responseHandler`, `summaryHandler`): a function is kept; a defined
non-function warns; the stored value stays undefined otherwise. -/
def validateFunField (key : String) (v : JSVal) : Option String × Option ℕ :=
  match v with
  | .fn t => (none, some t)
  | .undefined => (none, none)
  | _ => (some key, none)

/-- The nested numeric policy fields (`retryLimit`, `maxTotalPageFails`,
`maxConsecutivePageFails`): any non-NaN number is accepted through
`max(0, trunc)` (so `Infinity` stays infinite, embedded as `none`, and
`-Infinity` becomes 0). -/
def validateEHPNum (key : String) (dflt : Option ℕ) (v : JSVal) :
    Option String × Option ℕ :=
  match v with
  | .num .nan => (some key, dflt)
  | .num .posInf => (none, none)
  | .num .negInf => (none, some 0)
  | .num (.fin q) => (none, some (max 0 (jsTrunc q)).toNat)
  | .undefined => (none, dflt)
  | _ => (some key, dflt)

/-- The raw `errorHandlingPolicy` property bag.  The source reads each
known key off the provided value (`value ? value[k] : undefined`), so any
value without these properties behaves like an absent record: this is
embedded as `none`. -/
structure RawEHP : Type where
  retryLimit : JSVal
  retryDistinctFlows : JSVal
  skipPageIfPossible : JSVal
  maxTotalPageFails : JSVal
  maxConsecutivePageFails : JSVal
deriving DecidableEq, Repr

/-- The validated error handling policy (`none` embeds `Infinity`). -/
structure VEHP : Type where
  retryLimit : Option ℕ
  retryDistinctFlows : Bool
  skipPageIfPossible : Bool
  maxTotalPageFails : Option ℕ
  maxConsecutivePageFails : Option ℕ
deriving DecidableEq, Repr

/-- Validate the nested policy record, collecting warnings in the key
order of `DEFAULT_OPTIONS.errorHandlingPolicy`. -/
def validateEHP (raw : Option RawEHP) : List String × VEHP :=
  let r := raw.getD ⟨.undefined, .undefined, .undefined, .undefined, .undefined⟩
  let rl := validateEHPNum "options.errorHandlingPolicy.retryLimit" (some 2) r.retryLimit
  let rd := validateBoolField "options.errorHandlingPolicy.retryDistinctFlows" true
    r.retryDistinctFlows
  let sk := validateBoolField "options.errorHandlingPolicy.skipPageIfPossible" false
    r.skipPageIfPossible
  let mt := validateEHPNum "options.errorHandlingPolicy.maxTotalPageFails" none
    r.maxTotalPageFails
  let mc := validateEHPNum "options.errorHandlingPolicy.maxConsecutivePageFails" none
    r.maxConsecutivePageFails
  ([rl.1, rd.1, sk.1, mt.1, mc.1].reduceOption,
    ⟨rl.2, rd.2, sk.2, mt.2, mc.2⟩)

/-- The `logger` case. -/
def validateLogger (v : JSVal) : Option String × VLogger :=
  match v with
  | .bool b => (none, .flag b)
  | .arr es => (none, .cats es)
  | .undefined => (none, defaultLogger)
  | _ => (some "options.logger", defaultLogger)

/-- The `paginationType` case.  The source silently substitutes the
default (`None`) for any value that is not a numeric member of the enum:
no warning is ever emitted for this field. -/
def validatePaginationType (v : JSVal) : PaginationType :=
  match v with
  | .num (.fin q) =>
    if q = 0 then .noneKind
    else if q = 1 then .totalPages
    else if q = 2 then .hasMore
    else if q = 3 then .cursor
    else if q = 4 then .listKind
    else .noneKind
  | _ => .noneKind

/-- The raw options record handed to `ScraperFlow.create`. -/
structure RawOptions : Type where
  interval : JSVal
  intervalStrategy : JSVal
  cycleInterval : JSVal
  cycleIntervalStrategy : JSVal
  initThisContext : JSVal
  resetThisContext : JSVal
  initFlowContext : JSVal
  resetFlowContext : JSVal
  responseHandler : JSVal
  summaryHandler : JSVal
  errorHandlingPolicy : Option RawEHP
  logger : JSVal
  concurrency : JSVal
  removeContextForRedundantFlows : JSVal
  paginationType : JSVal
  fetchHandler : JSVal
  paginationStart : JSVal
  paginationPrefetch : JSVal
  resolveTotalPages : JSVal
  resolveHasMore : JSVal
  resolveCursor : JSVal
  resolveList : JSVal
deriving DecidableEq, Repr

/-- The raw options record with every field undefined. -/
def rawDefaults : RawOptions where
  interval := .undefined
  intervalStrategy := .undefined
  cycleInterval := .undefined
  cycleIntervalStrategy := .undefined
  initThisContext := .undefined
  resetThisContext := .undefined
  initFlowContext := .undefined
  resetFlowContext := .undefined
  responseHandler := .undefined
  summaryHandler := .undefined
  errorHandlingPolicy := none
  logger := .undefined
  concurrency := .undefined
  removeContextForRedundantFlows := .undefined
  paginationType := .undefined
  fetchHandler := .undefined
  paginationStart := .undefined
  paginationPrefetch := .undefined
  resolveTotalPages := .undefined
  resolveHasMore := .undefined
  resolveCursor := .undefined
  resolveList := .undefined

/-- The validated options record produced by `validateOptions`. -/
structure ValidatedOptions : Type where
  interval : VInterval
  intervalStrategy : IntervalStrategy
  cycleInterval : Option VInterval
  cycleIntervalStrategy : IntervalStrategy
  initThisContext : VInitFun
  resetThisContext : Bool
  initFlowContext : VInitFun
  resetFlowContext : Bool
  responseHandler : Option ℕ
  summaryHandler : Option ℕ
  errorHandlingPolicy : VEHP
  logger : VLogger
  concurrency : ℕ
  removeContextForRedundantFlows : Bool
  paginationType : PaginationType
  fetchHandler : Option ℕ
  paginationStart : ℤ
  paginationPrefetch : Bool
  resolveTotalPages : Option ℕ
  resolveHasMore : Option ℕ
  resolveCursor : Option ℕ
  resolveList : Option ℕ
deriving DecidableEq, Repr

/-- `validateOptions`: validate every field in the assignment order of the
source and collect the emitted `validationWarning` keys. -/
def validateOptions (o : RawOptions) : List String × ValidatedOptions :=
  let iv := validateIntervalField true o.interval
  let ivs := validateStrategyField false o.intervalStrategy
  let civ := validateIntervalField false o.cycleInterval
  let civs := validateStrategyField true o.cycleIntervalStrategy
  let itc := validateInitFun "options.initThisContext" o.initThisContext
  let rtc := validateBoolField "options.resetThisContext" false o.resetThisContext
  let ifc := validateInitFun "options.initFlowContext" o.initFlowContext
  let rfc := validateBoolField "options.resetFlowContext" false o.resetFlowContext
  let rh := validateFunField "options.responseHandler" o.responseHandler
  let sh := validateFunField "options.summaryHandler" o.summaryHandler
  let ehp := validateEHP o.errorHandlingPolicy
  let lg := validateLogger o.logger
  let cc := validateConcurrency o.concurrency
  let rcrf := validateBoolField "options.removeContextForRedundantFlows" true
    o.removeContextForRedundantFlows
  let pt := validatePaginationType o.paginationType
  let fh := validateFunField "options.fetchHandler" o.fetchHandler
  let ps := validatePaginationStart o.paginationStart
  let pp := validateBoolField "options.paginationPrefetch" false o.paginationPrefetch
  let rtp := validateFunField "options.resolveTotalPages" o.resolveTotalPages
  let rhm := validateFunField "options.resolveHasMore" o.resolveHasMore
  let rc := validateFunField "options.resolveCursor" o.resolveCursor
  let rl := validateFunField "options.resolveList" o.resolveList
  ([iv.1, ivs.1, civ.1, civs.1, itc.1, rtc.1, ifc.1, rfc.1, rh.1, sh.1].reduceOption
      ++ ehp.1
      ++ [lg.1, cc.1, rcrf.1, fh.1, ps.1, pp.1, rtp.1, rhm.1, rc.1, rl.1].reduceOption,
    { interval := (iv.2).getD defaultInterval
      intervalStrategy := ivs.2
      cycleInterval := civ.2
      cycleIntervalStrategy := civs.2
      initThisContext := itc.2
      resetThisContext := rtc.2
      initFlowContext := ifc.2
      resetFlowContext := rfc.2
      responseHandler := rh.2
      summaryHandler := sh.2
      errorHandlingPolicy := ehp.2
      logger := lg.2
      concurrency := cc.2
      removeContextForRedundantFlows := rcrf.2
      paginationType := pt
      fetchHandler := fh.2
      paginationStart := ps.2
      paginationPrefetch := pp.2
      resolveTotalPages := rtp.2
      resolveHasMore := rhm.2
      resolveCursor := rc.2
      resolveList := rl.2 })

/-- Whether the kind-specific resolver required by the validated
pagination type is absent. -/
def requiredResolverMissing (v : ValidatedOptions) : Bool :=
  match v.paginationType with
  | .noneKind => false
  | .totalPages => v.resolveTotalPages.isNone
  | .hasMore => v.resolveHasMore.isNone
  | .cursor => v.resolveCursor.isNone
  | .listKind => v.resolveList.isNone

/-- The value the constructor's `typeof` check sees: the result of the
user initializer when one was supplied, or `{}` from the default
initializer. -/
def effectiveThisContext (v : ValidatedOptions) (userInitResult : JSVal) : JSVal :=
  match v.initThisContext with
  | .userFn _ => userInitResult
  | .defaultFn => .obj

/-- `ScraperFlow.create` / the private constructor: validate, then throw
when `fetchHandler` is missing, when the kind-specific resolver is
missing, or when the (effective) `initThisContext` result fails the
`typeof globalContext !== 'object'` check.  `userInitResult` embeds the
value the user's `initThisContext` would return. -/
def createModel (o : RawOptions) (userInitResult : JSVal) :
    Except String (ValidatedOptions × List String) :=
  let vw := validateOptions o
  if vw.2.fetchHandler.isNone then .error "Property fetchHandler is required"
  else if requiredResolverMissing vw.2 then .error "A kind-specific resolver is required"
  else if jsTypeof (effectiveThisContext vw.2 userInitResult) ≠ .tObject then
    .error "This context should be an object"
  else .ok (vw.2, vw.1)

/-! ### Raw-level characterizations used to state the claims about
`create` (these restate documented valid shapes of option fields, to be
compared with the validators above). -/

/-- Valid shapes of `interval` / `cycleInterval` per the documentation: a
finite number, a function, a pair of finite numbers, or absent. -/
def validIntervalVal (v : JSVal) : Bool :=
  match v with
  | .num x => x.isFinite
  | .fn _ => true
  | .arr es => (intervalPairOk es).isSome
  | .undefined => true
  | _ => false

/-- Valid shapes of an interval strategy: `'dynamic'`, `'fixed'`, or
absent. -/
def validStrategyVal (v : JSVal) : Bool :=
  match v with
  | .str s => s = "dynamic" || s = "fixed"
  | .undefined => true
  | _ => false

/-- Valid shapes of `concurrency` / `paginationStart`: a finite number or
absent. -/
def validFiniteNumVal (v : JSVal) : Bool :=
  match v with
  | .num x => x.isFinite
  | .undefined => true
  | _ => false

/-- Valid shapes of a boolean option: a boolean or absent. -/
def validBoolVal (v : JSVal) : Bool :=
  match v with
  | .bool _ => true
  | .undefined => true
  | _ => false

/-- Valid shapes of a function option: a function or absent. -/
def validFunVal (v : JSVal) : Bool :=
  match v with
  | .fn _ => true
  | .undefined => true
  | _ => false

/-- Valid shapes of the nested numeric policy options: any non-NaN number
or absent. -/
def validNonNanNumVal (v : JSVal) : Bool :=
  match v with
  | .num .nan => false
  | .num _ => true
  | .undefined => true
  | _ => false

/-- Valid shapes of `logger`: a boolean, an array, or absent. -/
def validLoggerVal (v : JSVal) : Bool :=
  match v with
  | .bool _ => true
  | .arr _ => true
  | .undefined => true
  | _ => false

/-- Whether the raw options lack the resolver required by the pagination
kind they select (after the silent normalization of `paginationType`). -/
def requiredResolverRawMissing (o : RawOptions) : Bool :=
  match validatePaginationType o.paginationType with
  | .noneKind => false
  | .totalPages => !(jsTypeof o.resolveTotalPages = .tFunction)
  | .hasMore => !(jsTypeof o.resolveHasMore = .tFunction)
  | .cursor => !(jsTypeof o.resolveCursor = .tFunction)
  | .listKind => !(jsTypeof o.resolveList = .tFunction)

/-- The value the constructor's `typeof` check effectively sees, stated on
the raw options: the user initializer's result when a function was
supplied, else the `{}` of the default initializer. -/
def effectiveRawInit (o : RawOptions) (userInitResult : JSVal) : JSVal :=
  if jsTypeof o.initThisContext = .tFunction then userInitResult else .obj

/-- Whether a raw value is a function (`typeof v === 'function'`). -/
def isFunctionTypeof (v : JSVal) : Bool :=
  match v with
  | .fn _ => true
  | _ => false

/-- Whether an `Except` carries a success. -/
def exceptIsOk {α : Type} (e : Except String α) : Bool :=
  match e with
  | .ok _ => true
  | .error _ => false

/-- Whether `ScraperFlow.create` throws on the given raw options (with the
user `initThisContext` returning `userInitResult`). -/
def createThrows (o : RawOptions) (userInitResult : JSVal) : Bool :=
  !exceptIsOk (createModel o userInitResult)

/-! ## Interval computer (`ScraperFlow._computeInterval`)

The `Math.random()` draw is embedded as a parameter `r ∈ [0, 1)`; the
behaviour of a user interval function on the one call made here is
embedded as an `Except` parameter (an exception, or the returned JS
number). -/

/-- The range draw of `_computeInterval`:
`Math.floor(Math.random() * (b - a + 1)) + a`. -/
def rangeDraw (a b : ℕ) (r : ℚ) : ℤ :=
  ⌊r * ((b : ℚ) - (a : ℚ) + 1)⌋ + (a : ℤ)

/-- The function-invocation part of `_computeInterval`: coerce the result
with `Math.max(0, Math.trunc(·))`; a thrown error or a non-finite coerced
value is replaced by `undefined`, which then falls back to the default
range `[1000, 2000]`. -/
def resolveIntervalFn (fnResult : Except Unit JSNum) : VInterval :=
  match fnResult with
  | .error _ => defaultInterval
  | .ok x =>
    match jsMaxZeroTrunc x with
    | .fin q => .scalar q.num.toNat
    | _ => defaultInterval

/-- `_computeInterval` on an already-resolved interval value: apply the
function step if the value is a function, then draw from the range if the
resolved value is a pair, otherwise return the scalar. -/
def computeIntervalValue (v : VInterval) (fnResult : Except Unit JSNum) (r : ℚ) : ℤ :=
  let resolved : VInterval :=
    match v with
    | .func _ => resolveIntervalFn fnResult
    | w => w
  match resolved with
  | .range a b => rangeDraw a b r
  | .scalar n => (n : ℤ)
  | .func _ => 0

/-- `_computeInterval(property)`: for `cycleInterval`, an undefined value
falls back to the `interval` option. -/
def computeInterval (interval : VInterval) (cycleInterval : Option VInterval)
    (useCycleField : Bool) (fnResult : Except Unit JSNum) (r : ℚ) : ℤ :=
  let v : VInterval :=
    if useCycleField then
      match cycleInterval with
      | some w => w
      | none => interval
    else interval
  computeIntervalValue v fnResult r

/-! ## HasMore driver executor (`_handlePaginationHasMoreCycle`)

The executor body is embedded as a state transformer.  The combined
behaviour of `fetchHandler` and `resolveHasMore` on this invocation is an
oracle (`HMOutcome`): the fetch throws, the resolver throws, or the
resolver returns a boolean. -/

/-- Driver state captured by the HasMore executor closure, together with
the summary fields and fail counter it updates.  `fetchLog` records every
page for which `fetchHandler` is actually invoked. -/
structure HMState : Type where
  nextPage : ℕ
  lastPage : Option ℕ
  executorDone : Bool
  completedFlag : Bool
  totalPageCount : ℕ
  totalErrorCount : ℕ
  failedPageList : List ℕ
  failC : FailCounterState
  fetchLog : List ℕ
deriving DecidableEq, Repr

/-- Outcome of `fetchHandler` + `resolveHasMore` on one invocation. -/
inductive HMOutcome : Type
  | fetchThrows
  | resolveThrows
  | hasMore (b : Bool)
deriving DecidableEq, Repr

/-- Insert into a JS `Set` embedded as an insertion-ordered list. -/
def insertSet (x : ℕ) (l : List ℕ) : List ℕ :=
  if x ∈ l then l else l ++ [x]

/-- One invocation of the HasMore executor.  Returns the executor's result
(`none` embeds `false`, `some page` embeds the retry record `{ page }`)
and the updated state.  A retry whose page exceeds the discovered
`lastPage` returns `false` before fetching. -/
def hasMoreExec (pol : EHPolicy) (st : HMState) (attemptsLeft : ℕ)
    (retry : Option ℕ) (outcome : HMOutcome) : Option ℕ × HMState :=
  match retry with
  | some p =>
    if match st.lastPage with
       | some l => decide (l < p)
       | none => false then
      (none, st)
    else
      hasMoreFetch pol st attemptsLeft p outcome
  | none =>
    let page := st.nextPage
    hasMoreFetch pol { st with nextPage := page + 1 } attemptsLeft page outcome
where
  /-- The fetch/resolve part shared by fresh and retry invocations. -/
  hasMoreFetch (pol : EHPolicy) (st : HMState) (attemptsLeft page : ℕ)
      (outcome : HMOutcome) : Option ℕ × HMState :=
    let st := { st with fetchLog := st.fetchLog ++ [page] }
    let successful := match outcome with
      | .hasMore _ => true
      | _ => false
    let st := match outcome with
      | .hasMore false =>
        let st := { st with executorDone := true, completedFlag := true }
        if match st.lastPage with
           | none => true
           | some l => decide (page < l) then
          { st with lastPage := some page, totalPageCount := page }
        else st
      | _ => st
    if successful then
      (none, { st with failC := failCounterSuccess st.failC })
    else
      let st := { st with totalErrorCount := st.totalErrorCount + 1 }
      let st :=
        if attemptsLeft = 0 then
          let st := { st with failedPageList := insertSet page st.failedPageList }
          let fres := failCounterFail pol st.failC (some page)
          let st := { st with failC := fres.2 }
          if fres.1 then { st with executorDone := true } else st
        else st
      (some page, st)

/-! ## List driver executor (`_handlePaginationListCycle`)

List items are embedded abstractly as their positions; the executor state
carries the resolved item list length.  On terminal failure the
*zero-based index* of the item is added to `failedPageList`. -/

/-- Driver state captured by the List executor closure. -/
structure ListState : Type where
  /-- Length of the resolved `pageListItems` array. -/
  itemCount : ℕ
  nextPageIndex : ℕ
  executorDone : Bool
  completedFlag : Bool
  totalErrorCount : ℕ
  failedPageList : List ℕ
  failC : FailCounterState
  fetchLog : List ℕ
deriving DecidableEq, Repr

/-- One invocation of the List executor.  `retry` carries the retried
item's index; a fresh invocation allocates `nextPageIndex`.  Returns the
executor result (`none` embeds `false`, `some index` embeds the retry
record `{ item, index }`) and the updated state. -/
def listExec (pol : EHPolicy) (st : ListState) (attemptsLeft : ℕ)
    (retry : Option ℕ) (fetchSucceeds : Bool) : Option ℕ × ListState :=
  match retry with
  | some idx => listFetch pol st attemptsLeft idx fetchSucceeds
  | none =>
    let idx := st.nextPageIndex
    let st := { st with nextPageIndex := idx + 1 }
    let st :=
      if st.itemCount ≤ st.nextPageIndex then
        { st with executorDone := true, completedFlag := true }
      else st
    if st.itemCount ≤ idx then (none, st)
    else listFetch pol st attemptsLeft idx fetchSucceeds
where
  /-- The fetch part shared by fresh and retry invocations. -/
  listFetch (pol : EHPolicy) (st : ListState) (attemptsLeft idx : ℕ)
      (fetchSucceeds : Bool) : Option ℕ × ListState :=
    let st := { st with fetchLog := st.fetchLog ++ [idx] }
    if fetchSucceeds then
      (none, { st with failC := failCounterSuccess st.failC })
    else
      let st := { st with totalErrorCount := st.totalErrorCount + 1 }
      let st :=
        if attemptsLeft = 0 then
          let st := { st with failedPageList := insertSet idx st.failedPageList }
          let fres := failCounterFail pol st.failC none
          let st := { st with failC := fres.2 }
          if fres.1 then { st with executorDone := true } else st
        else st
      (some idx, st)

/-! ## Flow orchestrator (`_startFlowOrchestrator`), TotalPages instance

The orchestrator is embedded as an explicit task queue: every `await` of
the source becomes a queued task, and one `orchStep` executes one
synchronous block.  The tasks are

* `startFlows` — a `process.nextTick(startFlows)` callback;
* `wake ctx pr` — a worker whose pacing `sleep` is pending;
* `fetchDone ctx attemptsLeft page prFlows` — a worker whose
  `fetchHandler` / `resolveTotalPages` call is pending.

Nondeterministic scheduling is a parameter (`pick` chooses which pending
task runs next), the pacing sleeps are a parameter (`sleepHappens` says
whether the computed interval was positive), the success of
`fetchHandler` + `resolveTotalPages` for a given page and attempt is a
parameter (`fetchOk`), and a successful resolve always returns
`totalPagesValue`.  The worker contexts are `0, …, nCtx - 1` and are not
reset during the cycle (the default `initFlowContext` of the source, under
which `_updateFlowsContexts()` inside `startFlows` is a no-op once the
contexts exist).  Forced stop is an abort of the per-cycle signal,
delivered before step `abortAt`; the abort listener of the orchestrator
(`finish`) resolves the promise at that very moment.  Summary timings are
not modelled; `log` records one `(page, ctx)` entry per executor
invocation that reaches `fetchHandler` (in the TotalPages executor, every
invocation does). -/

/-- A pending retry record: `{ retry: { page }, flows, attemptsLeft }`.
`rid` embeds JS object identity (`indexOf` in the source). -/
structure PendingRetry : Type where
  rid : ℕ
  page : ℕ
  flows : List ℕ
  attemptsLeft : ℕ
deriving DecidableEq, Repr

/-- A suspended continuation of the orchestrator. -/
inductive OrchTask : Type
  | startFlows
  | wake (ctx : ℕ) (pr : Option PendingRetry)
  | fetchDone (ctx : ℕ) (attemptsLeft : ℕ) (page : ℕ) (prFlows : List ℕ)
deriving DecidableEq, Repr

/-- Scenario parameters of one orchestrated TotalPages cycle. -/
structure OrchParams : Type where
  nCtx : ℕ
  retryLimit : ℕ
  retryDistinctFlows : Bool
  skipPageIfPossible : Bool
  maxTotalPageFails : Option ℕ
  maxConsecutivePageFails : Option ℕ
  paginationStart : ℕ
  paginationPrefetch : Bool
  /-- The value `resolveTotalPages` returns on every successful call. -/
  totalPagesValue : ℕ
  /-- Whether `fetchHandler` + `resolveTotalPages` succeed for a given
  page and attempt number (0 = first attempt). -/
  fetchOk : ℕ → ℕ → Bool
  /-- Scheduling oracle: which pending task runs next. -/
  pick : ℕ → ℕ
  /-- Pacing oracle: whether the n-th computed worker interval leads to an
  actual (positive) sleep. -/
  sleepHappens : ℕ → Bool
  /-- Step index before which the per-cycle abort signal fires, if any. -/
  abortAt : Option ℕ

/-- The error handling policy of a parameter record. -/
def OrchParams.pol (p : OrchParams) : EHPolicy :=
  ⟨p.retryLimit, p.retryDistinctFlows, p.skipPageIfPossible,
    p.maxTotalPageFails, p.maxConsecutivePageFails⟩

/-- The orchestrator state between two synchronous blocks. -/
structure OrchState : Type where
  nextPage : ℕ
  lastPage : Option ℕ
  executorDone : Bool
  firstPageReady : Bool
  resolved : Bool
  abortedFlag : Bool
  stopError : Bool
  flows : List ℕ
  pendingRetries : List PendingRetry
  nextRid : ℕ
  hasLastExec : List ℕ
  queue : List OrchTask
  totalPageCount : ℕ
  failedPageList : List ℕ
  totalErrorCount : ℕ
  completedFlag : Bool
  failC : FailCounterState
  stepIdx : ℕ
  sleepIdx : ℕ
  log : List (ℕ × ℕ)
deriving DecidableEq, Repr

/-- The synchronous head of one TotalPages executor invocation: resolve
the page (a fresh invocation allocates `nextPage++` and, when the last
page is known and `page >= lastPage`, signals `done` and marks the cycle
completed), then start the fetch (queue its continuation). -/
def allocPhase (p : OrchParams) (s : OrchState) (ctx : ℕ)
    (pr : Option PendingRetry) : OrchState :=
  match pr with
  | some r =>
    { s with
      log := s.log ++ [(r.page, ctx)]
      queue := s.queue ++ [.fetchDone ctx r.attemptsLeft r.page r.flows] }
  | none =>
    let page := s.nextPage
    let s := { s with nextPage := page + 1 }
    let s :=
      if match s.lastPage with
         | some l => decide (l ≤ page)
         | none => false then
        { s with executorDone := true, completedFlag := true }
      else s
    { s with
      log := s.log ++ [(page, ctx)]
      queue := s.queue ++ [.fetchDone ctx p.retryLimit page []] }

/-- The synchronous start of `handleFlowExecution`: a worker with a
recorded last execution computes its interval and possibly sleeps; after
the (possibly skipped) sleep it is released when the sleep was cancelled
or the executor is done and this is not a retry.  A first-time worker
records its last execution and invokes the executor directly. -/
def hfeStart (p : OrchParams) (s : OrchState) (ctx : ℕ)
    (pr : Option PendingRetry) : OrchState :=
  if ctx ∈ s.hasLastExec then
    let doSleep := p.sleepHappens s.sleepIdx
    let s := { s with sleepIdx := s.sleepIdx + 1 }
    if doSleep then { s with queue := s.queue ++ [.wake ctx pr] }
    else if s.executorDone && pr.isNone then
      { s with flows := s.flows.erase ctx, queue := s.queue ++ [.startFlows] }
    else allocPhase p s ctx pr
  else
    allocPhase p { s with hasLastExec := s.hasLastExec ++ [ctx] } ctx pr

/-- Resumption after a pacing sleep: the sleep reports cancellation iff
the signal has fired; a cancelled worker, or a fresh worker that slept
past `done`, is released and dispatch is rescheduled. -/
def runWake (p : OrchParams) (s : OrchState) (ctx : ℕ)
    (pr : Option PendingRetry) : OrchState :=
  if s.abortedFlag || (s.executorDone && pr.isNone) then
    { s with flows := s.flows.erase ctx, queue := s.queue ++ [.startFlows] }
  else allocPhase p s ctx pr

/-- Resumption after `fetchHandler` + `resolveTotalPages` settle: on
success record the resolved total as `lastPage` and `totalPageCount` and
reset the fail counter streak; on failure count the error and, when
attempts are exhausted, record the failed page and possibly signal `done`
via the fail counter.  Then the tail of `handleFlowExecution`: a success
sets `firstPageReady`; a failure with attempts left queues the retry
record; the worker is released and dispatch rescheduled. -/
def runFetchDone (p : OrchParams) (s : OrchState) (ctx attemptsLeft page : ℕ)
    (prFlows : List ℕ) : OrchState :=
  let ok := p.fetchOk page (p.retryLimit - attemptsLeft)
  let s :=
    if ok then
      { s with
        lastPage := some p.totalPagesValue
        totalPageCount := p.totalPagesValue
        failC := failCounterSuccess s.failC }
    else
      let s := { s with totalErrorCount := s.totalErrorCount + 1 }
      if attemptsLeft = 0 then
        let s := { s with failedPageList := insertSet page s.failedPageList }
        let fres := failCounterFail p.pol s.failC (some page)
        let s := { s with failC := fres.2 }
        if fres.1 then { s with executorDone := true } else s
      else s
  let s :=
    if ok then { s with firstPageReady := true }
    else if 0 < attemptsLeft then
      { s with
        pendingRetries := s.pendingRetries ++
          [⟨s.nextRid, page, insertSet ctx prFlows, attemptsLeft - 1⟩]
        nextRid := s.nextRid + 1 }
    else s
  { s with flows := s.flows.erase ctx, queue := s.queue ++ [.startFlows] }

/-- One entry of the `retryQueue` built by the distinct-flows retry
assignment: the pending retry (snapshot, after a possible saturation
reset) and its claimed available contexts. -/
structure RetryQueueEntry : Type where
  rid : ℕ
  pr : PendingRetry
  avail : List ℕ
deriving DecidableEq, Repr

/-- Look up the available-context set of a queued entry. -/
def rqGetAvail (q : List RetryQueueEntry) (rid : ℕ) : List ℕ :=
  match q.find? (fun e => e.rid = rid) with
  | some e => e.avail
  | none => []

/-- Remove a context from the available set of a queued entry. -/
def rqEraseAvail (q : List RetryQueueEntry) (rid : ℕ) (c : ℕ) :
    List RetryQueueEntry :=
  q.map (fun e => if e.rid = rid then { e with avail := e.avail.erase c } else e)

/-- `Map.set` on the compatibility map (context ↦ claiming entry). -/
def setAssoc (m : List (ℕ × ℕ)) (c v : ℕ) : List (ℕ × ℕ) :=
  if (m.lookup c).isSome then m.map (fun kv => if kv.1 = c then (c, v) else kv)
  else m ++ [(c, v)]

/-- The inner claiming loop of the distinct-flows assignment: for each
candidate context, a context already claimed by another entry is stolen
only when that entry keeps at least one context; every claimed context is
recorded in the compatibility map.  Returns the updated retry queue, map,
and the contexts claimed for the current entry. -/
def claimLoop (myRid : ℕ) : List ℕ → List RetryQueueEntry → List (ℕ × ℕ) →
    List ℕ → List RetryQueueEntry × List (ℕ × ℕ) × List ℕ
  | [], q, m, acc => (q, m, acc)
  | c :: cs, q, m, acc =>
    match m.lookup c with
    | some otherRid =>
      if (rqGetAvail q otherRid).length ≤ 1 then claimLoop myRid cs q m acc
      else claimLoop myRid cs (rqEraseAvail q otherRid c) (setAssoc m c myRid)
        (acc ++ [c])
    | none => claimLoop myRid cs q (setAssoc m c myRid) (acc ++ [c])

/-- The outer loop building the `retryQueue`: iterate the pending retries
in order; a retry that has visited every context has its visited set reset
first (and may then go to any free context), otherwise its candidates are
the free contexts it has not visited.  An entry with a nonempty claimed
set is queued and consumes one free slot; the loop stops when the slots
run out.  Returns the (possibly reset) pending retries, the retry queue,
and the remaining slot count. -/
def buildRQ (nCtx : ℕ) (freeCtxs : List ℕ) :
    List PendingRetry → List RetryQueueEntry → List (ℕ × ℕ) → ℕ →
    List PendingRetry × List RetryQueueEntry × ℕ
  | [], q, _m, fl => ([], q, fl)
  | r :: rest, q, m, fl =>
    let r1 := if nCtx ≤ r.flows.length then { r with flows := [] } else r
    let avail := if nCtx ≤ r.flows.length then freeCtxs
                 else freeCtxs.filter (fun c => c ∉ r.flows)
    let res := claimLoop r1.rid avail q m []
    if res.2.2.isEmpty then
      let out := buildRQ nCtx freeCtxs rest res.1 res.2.1 fl
      (r1 :: out.1, out.2.1, out.2.2)
    else
      let q1 := res.1 ++ [⟨r1.rid, r1, res.2.2⟩]
      if fl - 1 = 0 then (r1 :: rest, q1, fl - 1)
      else
        let out := buildRQ nCtx freeCtxs rest q1 res.2.1 (fl - 1)
        (r1 :: out.1, out.2.1, out.2.2)

/-- Dispatch the queued retries: each entry takes the first context of its
claimed set, the retry is spliced out of the pending list, the context
leaves the free set and enters the in-flight set, and its worker starts.
An entry with no context left triggers a forced stop (the source treats
this as an internal error).  Returns the state, the remaining free
contexts, and whether the forced stop fired. -/
def dispatchRetries (p : OrchParams) :
    List RetryQueueEntry → OrchState → List ℕ → OrchState × List ℕ × Bool
  | [], s, fc => (s, fc, false)
  | e :: es, s, fc =>
    match e.avail.head? with
    | none =>
      ({ s with stopError := true, abortedFlag := true, resolved := true }, fc, true)
    | some ctx =>
      let s := { s with pendingRetries := s.pendingRetries.eraseP (fun r => r.rid = e.rid) }
      let s := { s with flows := insertSet ctx s.flows }
      let s := hfeStart p s ctx (some e.pr)
      dispatchRetries p es s (fc.erase ctx)

/-- The fresh-task loop of `startFlows`: each remaining free context
receives a fresh task (or, without the distinct-flows policy, the head of
the pending retries); the loop breaks when the executor is done and no
retry was shifted, or when the free slots run out. -/
def dispatchFresh (p : OrchParams) : List ℕ → ℕ → OrchState → OrchState
  | [], _, s => s
  | c :: cs, fl, s =>
    let shifted : Option PendingRetry × OrchState :=
      if p.retryDistinctFlows then (none, s)
      else
        match s.pendingRetries with
        | [] => (none, s)
        | r :: rs => (some r, { s with pendingRetries := rs })
    if s.executorDone && shifted.1.isNone then shifted.2
    else
      let s := { shifted.2 with flows := insertSet c shifted.2.flows }
      let s := hfeStart p s c shifted.1
      if fl - 1 = 0 then s else dispatchFresh p cs (fl - 1) s

/-- The effective concurrency of a dispatch tick: forced to 1 for
TotalPages while `paginationPrefetch` is off and the first page has not
resolved; otherwise the configured concurrency. -/
def effectiveConcurrency (p : OrchParams) (s : OrchState) : ℕ :=
  if !p.paginationPrefetch && !s.firstPageReady then 1 else p.nCtx

/-- One run of `startFlows`: finish when the executor signalled done and
nothing is in flight or queued for retry; otherwise compute the effective
concurrency, and dispatch retries and fresh tasks to the free contexts. -/
def runStartFlows (p : OrchParams) (s : OrchState) : OrchState :=
  if s.resolved then s
  else if s.executorDone && s.flows.isEmpty && s.pendingRetries.isEmpty then
    { s with resolved := true }
  else
    if effectiveConcurrency p s ≤ s.flows.length then s
    else
      let fl := effectiveConcurrency p s - s.flows.length
      let freeCtxs := (List.range p.nCtx).filter (fun c => c ∉ s.flows)
      if p.retryDistinctFlows then
        let built := buildRQ p.nCtx freeCtxs s.pendingRetries [] [] fl
        let s := { s with pendingRetries := built.1 }
        let disp := dispatchRetries p built.2.1 s freeCtxs
        if disp.2.2 then disp.1
        else if built.2.2 = 0 then disp.1
        else dispatchFresh p disp.2.1 built.2.2 disp.1
      else dispatchFresh p freeCtxs fl s

/-- Run one queued task. -/
def runTask (p : OrchParams) (s : OrchState) : OrchTask → OrchState
  | .startFlows => runStartFlows p s
  | .wake ctx pr => runWake p s ctx pr
  | .fetchDone ctx aL page prFlows => runFetchDone p s ctx aL page prFlows

/-- One step of the embedded event loop.  When the abort is due, this
step is the synchronous `abort()` delivery: the sleeps are cancelled and
the orchestrator's abort listener (`finish`) resolves the promise on the
spot — pending continuations stay queued and run later.  Otherwise the
step runs the pending task selected by the scheduling oracle. -/
def orchStep (p : OrchParams) (s : OrchState) : OrchState :=
  if p.abortAt = some s.stepIdx then
    { s with abortedFlag := true, resolved := true, stepIdx := s.stepIdx + 1 }
  else
    let s := { s with stepIdx := s.stepIdx + 1 }
    match s.queue with
    | [] => s
    | q =>
      let i := p.pick s.stepIdx % q.length
      let t := q.getD i .startFlows
      runTask p { s with queue := q.eraseIdx i } t

/-- Run `fuel` steps of the event loop. -/
def runOrch (p : OrchParams) : ℕ → OrchState → OrchState
  | 0, s => s
  | n + 1, s => runOrch p n (orchStep p s)

/-- The initial orchestrator state: the synchronous `startFlows()` call at
the end of `_startFlowOrchestrator` is the first queued task. -/
def initOrchState (p : OrchParams) : OrchState where
  nextPage := p.paginationStart
  lastPage := none
  executorDone := false
  firstPageReady := false
  resolved := false
  abortedFlag := false
  stopError := false
  flows := []
  pendingRetries := []
  nextRid := 0
  hasLastExec := []
  queue := [.startFlows]
  totalPageCount := 0
  failedPageList := []
  totalErrorCount := 0
  completedFlag := false
  failC := initFailCounter
  stepIdx := 0
  sleepIdx := 0
  log := []

/-- The observable cycle summary of a TotalPages cycle (timings omitted),
including the final
`completed = completed && failCounter.complete(lastPage)` step of
`_handlePaginationTotalPagesCycle`. -/
structure TPSummary : Type where
  completed : Bool
  totalPageCount : ℕ
  failedPageList : List ℕ
  totalErrorCount : ℕ
  fetchCount : ℕ
  pagesFetched : List ℕ
deriving DecidableEq, Repr

/-- Run a whole TotalPages cycle and assemble its summary. -/
def totalPagesCycle (p : OrchParams) (fuel : ℕ) : TPSummary :=
  let s := runOrch p fuel (initOrchState p)
  { completed := s.completedFlag && failCounterComplete p.pol s.failC s.lastPage
    totalPageCount := s.totalPageCount
    failedPageList := s.failedPageList
    totalErrorCount := s.totalErrorCount
    fetchCount := s.log.length
    pagesFetched := s.log.map Prod.fst }

/-- The scenario of claim C1: TotalPages, concurrency 3, pagination start
1, `resolveTotalPages` returning 5 on every call, every fetch succeeding,
all other options at their defaults; FIFO scheduling, every pacing
interval positive, no abort. -/
def paramsScenario1 : OrchParams where
  nCtx := 3
  retryLimit := 2
  retryDistinctFlows := true
  skipPageIfPossible := false
  maxTotalPageFails := none
  maxConsecutivePageFails := none
  paginationStart := 1
  paginationPrefetch := false
  totalPagesValue := 5
  fetchOk := fun _ _ => true
  pick := fun _ => 0
  sleepHappens := fun _ => true
  abortAt := none

/-- The abort scenario used against claim C2: one worker, the first
dispatch starts a fetch, and the forced-stop abort is delivered while that
fetch is in flight. -/
def paramsAbortScenario : OrchParams where
  nCtx := 1
  retryLimit := 0
  retryDistinctFlows := true
  skipPageIfPossible := false
  maxTotalPageFails := none
  maxConsecutivePageFails := none
  paginationStart := 1
  paginationPrefetch := false
  totalPagesValue := 5
  fetchOk := fun _ _ => true
  pick := fun _ => 0
  sleepHappens := fun _ => true
  abortAt := some 1

/-- A failing-page scenario: page 2 always fails, every other page
succeeds.  Used as the concrete witness for the distinct-flows retry
claim. -/
def paramsPage2Fails : OrchParams where
  nCtx := 3
  retryLimit := 2
  retryDistinctFlows := true
  skipPageIfPossible := false
  maxTotalPageFails := none
  maxConsecutivePageFails := none
  paginationStart := 1
  paginationPrefetch := false
  totalPagesValue := 5
  fetchOk := fun page _ => page ≠ 2
  pick := fun _ => 0
  sleepHappens := fun _ => true
  abortAt := none

/-- A concrete HasMore state used in the witness of the stale-retry
claim: last page 4 was discovered, pages 1–5 were fetched. -/
def hmStateW : HMState where
  nextPage := 6
  lastPage := some 4
  executorDone := true
  completedFlag := true
  totalPageCount := 4
  totalErrorCount := 1
  failedPageList := []
  failC := initFailCounter
  fetchLog := [1, 2, 3, 4, 5]

/-- A concrete List state used in the witness of the zero-based-index
claim: a three-item list before its first dispatch. -/
def listStateW : ListState where
  itemCount := 3
  nextPageIndex := 0
  executorDone := false
  completedFlag := false
  totalErrorCount := 0
  failedPageList := []
  failC := initFailCounter
  fetchLog := []

/-- The default error handling policy
(`DEFAULT_OPTIONS.errorHandlingPolicy`). -/
def defaultPolicy : EHPolicy where
  retryLimit := 2
  retryDistinctFlows := true
  skipPageIfPossible := false
  maxTotalPageFails := none
  maxConsecutivePageFails := none

/-! ### Attempt bookkeeping for the distinct-flows invariant

`ctxsFor log q` is the sequence of worker contexts on which page `q` has
been dispatched so far (one `log` entry per executor invocation reaching
`fetchHandler`).  A *live handle* of a page is its single pending
representation: a queued `PendingRetry`, a sleeping retry (`wake` with a
retry), or an in-flight fetch (`fetchDone`). -/

/-- The contexts page `q` has been attempted on, in dispatch order. -/
def ctxsFor (log : List (ℕ × ℕ)) (q : ℕ) : List ℕ :=
  (log.filter (fun e => e.1 = q)).map Prod.snd

/-- The page of the live handle a task carries, if any. -/
def taskHandlePage : OrchTask → Option ℕ
  | .wake _ (some r) => some r.page
  | .fetchDone _ _ page _ => some page
  | _ => none

/-- How many live handles a page has in the pending-retry list and the
task queue. -/
def handleCount (prs : List PendingRetry) (queue : List OrchTask) (q : ℕ) : ℕ :=
  (prs.map PendingRetry.page).count q + (queue.filterMap taskHandlePage).count q

/-- The global invariant of the orchestrated TotalPages cycle used to
settle the distinct-flows retry claim.  Every live handle of a page
carries exactly the attempt history of that page; a failed page has
exhausted `retryLimit + 1` attempts on pairwise distinct contexts; every
page has at most one live handle and failed pages have none. -/
structure OrchInv (p : OrchParams) (s : OrchState) : Prop where
  pagesLt : ∀ e ∈ s.log, e.1 < s.nextPage
  prOk : ∀ r ∈ s.pendingRetries,
    ctxsFor s.log r.page = r.flows ∧ r.flows ≠ [] ∧ r.flows.Nodup ∧
    r.attemptsLeft + r.flows.length = p.retryLimit
  wakeOk : ∀ (ctx : ℕ) (r : PendingRetry), OrchTask.wake ctx (some r) ∈ s.queue →
    ctxsFor s.log r.page = r.flows ∧ r.flows ≠ [] ∧ r.flows.Nodup ∧
    r.attemptsLeft + r.flows.length = p.retryLimit ∧ ctx ∉ r.flows
  fdOk : ∀ (ctx aL page : ℕ) (fl : List ℕ),
    OrchTask.fetchDone ctx aL page fl ∈ s.queue →
    ctxsFor s.log page = fl ++ [ctx] ∧ (fl ++ [ctx]).Nodup ∧
    aL + fl.length = p.retryLimit
  failedOk : ∀ q ∈ s.failedPageList,
    (ctxsFor s.log q).length = p.retryLimit + 1 ∧ (ctxsFor s.log q).Nodup
  counts : ∀ q, handleCount s.pendingRetries s.queue q + s.failedPageList.count q ≤ 1
  ridsNodup : (s.pendingRetries.map PendingRetry.rid).Nodup
  ridLt : ∀ r ∈ s.pendingRetries, r.rid < s.nextRid

/-- A well-formed `retryQueue` entry: it snapshots a pending retry, keys
it by that retry's id, and only offers contexts the retry has not visited
yet. -/
def EntryOkP (prs : List PendingRetry) (e : RetryQueueEntry) : Prop :=
  e.pr ∈ prs ∧ e.rid = e.pr.rid ∧ ∀ c ∈ e.avail, c ∉ e.pr.flows

/-! ## Theorems -/

/-! ### Claim C6 — the fail counter's `fail` -/

/-- Claim C6: every call to the fail counter's `fail(page?)` increments
both `totalPageFails` and `consecutivePageFails` by exactly 1 and returns
the negation of `skipPageIfPossible && totalPageFails <= maxTotalPageFails
&& consecutivePageFails <= maxConsecutivePageFails` evaluated on the
post-increment counters. -/
theorem failCounter_fail_spec (pol : EHPolicy) (fc : FailCounterState)
    (page : Option ℕ) :
    (failCounterFail pol fc page).2.totalPageFails = fc.totalPageFails + 1 ∧
    (failCounterFail pol fc page).2.consecutivePageFails =
      fc.consecutivePageFails + 1 ∧
    (failCounterFail pol fc page).1 =
      !(pol.skipPageIfPossible
        && leOrInf (fc.totalPageFails + 1) pol.maxTotalPageFails
        && leOrInf (fc.consecutivePageFails + 1) pol.maxConsecutivePageFails) :=
  ⟨rfl, rfl, rfl⟩

/-! ### Claim C9 — the sleeper -/

/-- Claim C9: `sleep(ms, signal)` resolves immediately with `true` when
the signal is already aborted; otherwise it resolves `false` when the
timer fires first and `true` when the signal fires during the wait; on
every resolution path the abort listener ends up detached (and no timer is
left pending). -/
theorem sleep_spec (ev : SleepFirstEvent) :
    sleepRun true ev =
      { cancelled := true, resolvedImmediately := true,
        listenerStillAttached := false, timerStillPending := false } ∧
    sleepRun false .timerFires =
      { cancelled := false, resolvedImmediately := false,
        listenerStillAttached := false, timerStillPending := false } ∧
    sleepRun false .signalAborts =
      { cancelled := true, resolvedImmediately := false,
        listenerStillAttached := false, timerStillPending := false } :=
  ⟨rfl, rfl, rfl⟩

/-! ### Claim C8 — summary averages -/

theorem addAvgTiming_pair_same (k : TimingKind) (t : ℕ) (acc : TimingsAcc) :
    (addAvgTiming k t acc).pair k = ((acc.pair k).1 + t, (acc.pair k).2 + 1) := by
  cases k <;> rfl

theorem addAvgTiming_pair_other (k j : TimingKind) (t : ℕ) (acc : TimingsAcc)
    (h : j ≠ k) : (addAvgTiming j t acc).pair k = acc.pair k := by
  cases k <;> cases j <;> first | rfl | exact absurd rfl h

theorem recordTimings_foldl_pair (k : TimingKind) :
    ∀ (events : List (TimingKind × ℕ)) (acc : TimingsAcc),
      ((events.foldl (fun a e => addAvgTiming e.1 e.2 a) acc).pair k) =
        ((acc.pair k).1 + (samplesOf events k).sum,
          (acc.pair k).2 + (samplesOf events k).length)
  | [], acc => by simp [samplesOf]
  | e :: es, acc => by
    by_cases h : e.1 = k
    · have hs : samplesOf (e :: es) k = e.2 :: samplesOf es k := by
        simp [samplesOf, List.filter_cons, h]
      rw [List.foldl_cons, recordTimings_foldl_pair k es, h, addAvgTiming_pair_same,
        hs]
      simp only [List.sum_cons, List.length_cons, Prod.mk.injEq]
      omega
    · have hs : samplesOf (e :: es) k = samplesOf es k := by
        simp [samplesOf, List.filter_cons, h]
      rw [List.foldl_cons, recordTimings_foldl_pair k es,
        addAvgTiming_pair_other k e.1 e.2 acc h, hs]

theorem jsOrZero_fin (q : ℚ) : jsOrZero (.fin q) = .fin q := by
  by_cases hq : q = 0 <;> simp [jsOrZero, JSNum.truthy, hq]

/-- Claim C8: each summarized average equals the arithmetic mean of the
timings recorded for that category via `addAvgTiming`, and equals 0 when
the category has no recorded samples. -/
theorem summary_avg_is_mean (events : List (TimingKind × ℕ)) (k : TimingKind) :
    summarizeAvg (recordTimings events) k = .fin (meanSpec (samplesOf events k)) := by
  have hp := recordTimings_foldl_pair k events initTimingsAcc
  have hinit : (initTimingsAcc.pair k) = (0, 0) := by cases k <;> rfl
  rw [hinit] at hp
  rw [summarizeAvg, recordTimings, hp]
  by_cases hnil : samplesOf events k = []
  · rw [hnil]
    simp [jsDivNat, jsOrZero, JSNum.truthy, meanSpec]
  · have hlen : (samplesOf events k).length ≠ 0 := by
      intro hh
      exact hnil (List.length_eq_zero.mp hh)
    rw [meanSpec, if_neg hnil]
    simp only [jsDivNat, Nat.zero_add]
    rw [if_neg hlen, jsOrZero_fin]

/-! ### Claim C7 — HasMore drops retries beyond the discovered last page -/

/-- Claim C7: in the HasMore executor, a retry whose page is strictly
greater than the discovered `lastPage` returns `false` without invoking
`fetchHandler`: the state is completely unchanged (nothing is fetched, no
error is counted, nothing is added to `failedPageList`), and since the
executor result is `false` the retry is not requeued either. -/
theorem hasMore_stale_retry_dropped (pol : EHPolicy) (st : HMState)
    (attemptsLeft page l : ℕ) (outcome : HMOutcome)
    (hl : st.lastPage = some l) (hp : l < page) :
    hasMoreExec pol st attemptsLeft (some page) outcome = (none, st) := by
  unfold hasMoreExec
  rw [hl]
  simp [hp]

/-- Witness for `hasMore_stale_retry_dropped` at a concrete state: last
page 4 was discovered, a retry for page 5 arrives. -/
theorem hasMore_stale_retry_dropped_witness :
    hmStateW.lastPage = some 4 ∧ 4 < 5 ∧
    hasMoreExec defaultPolicy hmStateW 1 (some 5) (.hasMore true) =
      (none, hmStateW) :=
  ⟨rfl, by decide,
    hasMore_stale_retry_dropped defaultPolicy hmStateW 1 5 4 (.hasMore true)
      rfl (by decide)⟩

/-! ### Claim C10 — List records zero-based indices -/

/-- Claim C10: when a List item exhausts its retries, the identifier added
to `failedPageList` is the item's zero-based index in the resolved list:
a retried item carries its index verbatim, a fresh invocation uses the
allocated `nextPageIndex`, and a terminal failure of the first item of the
list therefore records `0` (not a 1-based page number). -/
theorem listFetch_terminal_failure (pol : EHPolicy) (st : ListState) (idx : ℕ) :
    (listExec.listFetch pol st 0 idx false).2.failedPageList =
      insertSet idx st.failedPageList := by
  cases hf : failCounterFail pol st.failC none with
  | mk cannot fc => cases cannot <;> simp [listExec.listFetch, hf]

theorem list_failed_id_is_zero_based (pol : EHPolicy) (st : ListState) (idx : ℕ)
    (hidx : st.nextPageIndex = 0) (hcount : 0 < st.itemCount) :
    (listExec pol st 0 (some idx) false).2.failedPageList =
      insertSet idx st.failedPageList ∧
    (listExec pol st 0 none false).2.failedPageList =
      insertSet 0 st.failedPageList := by
  constructor
  · exact listFetch_terminal_failure pol st idx
  · unfold listExec
    dsimp only
    rw [hidx]
    by_cases hic : st.itemCount ≤ 0 + 1
    · rw [if_pos hic]
      dsimp only
      rw [if_neg (by omega), listFetch_terminal_failure]
    · rw [if_neg hic]
      dsimp only
      rw [if_neg (by omega), listFetch_terminal_failure]

/-- Witness for `list_failed_id_is_zero_based`: a three-item list before
its first dispatch; the terminal failure of the first item records `0`. -/
theorem list_failed_id_is_zero_based_witness :
    listStateW.nextPageIndex = 0 ∧ 0 < listStateW.itemCount ∧
    ((listExec defaultPolicy listStateW 0 (some 2) false).2.failedPageList
        = insertSet 2 [] ∧
      (listExec defaultPolicy listStateW 0 none false).2.failedPageList
        = insertSet 0 []) :=
  ⟨rfl, by decide,
    list_failed_id_is_zero_based defaultPolicy listStateW 2 rfl (by decide)⟩

/-! ### Claim C4 — the interval computer -/

theorem rangeDraw_mem (a b : ℕ) (r : ℚ) (hab : a ≤ b) (h0 : 0 ≤ r) (h1 : r < 1) :
    (a : ℤ) ≤ rangeDraw a b r ∧ rangeDraw a b r ≤ (b : ℤ) := by
  have hab' : (a : ℚ) ≤ (b : ℚ) := by exact_mod_cast hab
  have hn : (0 : ℚ) < (b : ℚ) - a + 1 := by linarith
  constructor
  · have hfl : (0 : ℤ) ≤ ⌊r * ((b : ℚ) - a + 1)⌋ :=
      Int.floor_nonneg.mpr (mul_nonneg h0 (le_of_lt hn))
    unfold rangeDraw
    omega
  · have hlt : r * ((b : ℚ) - a + 1) < (b : ℚ) - a + 1 := by nlinarith
    have hfl : ⌊r * ((b : ℚ) - a + 1)⌋ < (b : ℤ) - a + 1 := by
      apply Int.floor_lt.mpr
      push_cast
      linarith
    unfold rangeDraw
    omega

theorem rangeDraw_eq_iff (a b : ℕ) (r : ℚ) (hab : a ≤ b) (k : ℤ) :
    rangeDraw a b r = k ↔
      ((k : ℚ) - a) / ((b : ℚ) - a + 1) ≤ r ∧
        r < ((k : ℚ) - a + 1) / ((b : ℚ) - a + 1) := by
  have hab' : (a : ℚ) ≤ (b : ℚ) := by exact_mod_cast hab
  have hn : (0 : ℚ) < (b : ℚ) - a + 1 := by linarith
  have h1 : rangeDraw a b r = k ↔ ⌊r * ((b : ℚ) - a + 1)⌋ = k - a := by
    unfold rangeDraw
    omega
  rw [h1, Int.floor_eq_iff, div_le_iff₀ hn, lt_div_iff₀ hn]
  push_cast
  constructor
  · rintro ⟨h2, h3⟩
    exact ⟨by linarith, by linarith⟩
  · rintro ⟨h2, h3⟩
    exact ⟨by linarith, by linarith⟩

/-- Claim C4: for each of `interval` and `cycleInterval`, an undefined
`cycleInterval` falls back to `interval`; a function value has its result
coerced by `max(0, trunc(·))` — a thrown error or non-finite coerced
result (NaN or `Infinity`; `-Infinity` coerces to the finite 0) is
replaced by the default range `[1000, 2000]`; a resolved two-element range
`[a, b]` yields an integer in `[a, b]` drawn uniformly (each `k ∈ [a, b]`
is hit exactly on the sub-interval of `r` of length `1 / (b - a + 1)`
characterized below); and any other resolved value is returned as the
scalar interval. -/
theorem computeInterval_spec :
    (∀ (iv : VInterval) (f : Except Unit JSNum) (r : ℚ),
        computeInterval iv none true f r = computeIntervalValue iv f r) ∧
    (∀ (t : ℕ) (r : ℚ),
        computeIntervalValue (.func t) (.error ()) r = rangeDraw 1000 2000 r) ∧
    (∀ (t : ℕ) (r : ℚ),
        computeIntervalValue (.func t) (.ok .nan) r = rangeDraw 1000 2000 r) ∧
    (∀ (t : ℕ) (r : ℚ),
        computeIntervalValue (.func t) (.ok .posInf) r = rangeDraw 1000 2000 r) ∧
    (∀ (t : ℕ) (r : ℚ), computeIntervalValue (.func t) (.ok .negInf) r = 0) ∧
    (∀ (t : ℕ) (q r : ℚ),
        computeIntervalValue (.func t) (.ok (.fin q)) r = max 0 (jsTrunc q)) ∧
    (∀ (n : ℕ) (f : Except Unit JSNum) (r : ℚ),
        computeIntervalValue (.scalar n) f r = (n : ℤ)) ∧
    (∀ (a b : ℕ) (f : Except Unit JSNum) (r : ℚ), a ≤ b → 0 ≤ r → r < 1 →
        ((a : ℤ) ≤ computeIntervalValue (.range a b) f r ∧
          computeIntervalValue (.range a b) f r ≤ (b : ℤ)) ∧
        ∀ k : ℤ, (computeIntervalValue (.range a b) f r = k ↔
          ((k : ℚ) - a) / ((b : ℚ) - a + 1) ≤ r ∧
            r < ((k : ℚ) - a + 1) / ((b : ℚ) - a + 1))) := by
  refine ⟨fun iv f r => rfl, fun t r => rfl, fun t r => rfl, fun t r => rfl,
    fun t r => rfl, fun t q r => ?_, fun n f r => rfl, fun a b f r hab h0 h1 => ?_⟩
  · have key : ∀ x : ℤ, (((max (0 : ℚ) (x : ℚ))).num.toNat : ℤ) = max 0 x := by
      intro x
      have h1 : max (0 : ℚ) (x : ℚ) = ((max 0 x : ℤ) : ℚ) := by norm_cast
      rw [h1, Rat.num_intCast, Int.toNat_of_nonneg (le_max_left 0 x)]
    exact key (jsTrunc q)
  · exact ⟨rangeDraw_mem a b r hab h0 h1, fun k => rangeDraw_eq_iff a b r hab k⟩

/-- Witness for `computeInterval_spec` on the range clause at `a = 1000`,
`b = 2000`, `r = 1/2`. -/
theorem computeInterval_spec_witness :
    (1000 : ℤ) ≤ computeIntervalValue (.range 1000 2000) (.error ()) (1 / 2 : ℚ) ∧
    computeIntervalValue (.range 1000 2000) (.error ()) (1 / 2 : ℚ) ≤ (2000 : ℤ) :=
  (computeInterval_spec.2.2.2.2.2.2.2 1000 2000 (.error ()) (1 / 2)
    (by norm_num) (by norm_num) (by norm_num)).1

/-! ### Claim C1 — the all-success TotalPages scenario -/

/-- Claim C1, evaluated on the code: in the scenario (TotalPages,
concurrency 3, `paginationStart = 1`, `resolveTotalPages` returning 5 on
every call, every fetch succeeding, every other option at its default),
exactly 5 fetches occur, `totalPageCount = 5`, `failedPageList = []`, and
every page id in `{1, …, 5}` is dispatched — but the summary has
`completed = false`, because even though the driver set its completed flag
when allocating the last page, `failCounter.complete(lastPage)` returns
`canSkipPage()`, which is `false` whenever `skipPageIfPossible` is at its
default `false`. -/
theorem totalPages_scenario1_run :
    totalPagesCycle paramsScenario1 30 =
      { completed := false, totalPageCount := 5, failedPageList := [],
        totalErrorCount := 0, fetchCount := 5, pagesFetched := [1, 2, 3, 4, 5] } ∧
    (runOrch paramsScenario1 30 (initOrchState paramsScenario1)).resolved = true ∧
    (runOrch paramsScenario1 30 (initOrchState paramsScenario1)).completedFlag = true ∧
    failCounterComplete paramsScenario1.pol
      (runOrch paramsScenario1 30 (initOrchState paramsScenario1)).failC
      (runOrch paramsScenario1 30 (initOrchState paramsScenario1)).lastPage = false := by
  decide

/-! ### Claim C2 — when the orchestrator promise resolves -/

/-- Counterexample to claim C2: after the first dispatch of the abort
scenario the fetch of page 1 is in flight (worker 0 is in `flows` and its
`fetchDone` continuation is pending), yet the delivered abort resolves the
per-cycle promise at that very moment — the promise does not wait for the
in-flight executor invocation to return. -/
theorem orchestrator_resolves_with_inflight_fetch :
    (runOrch paramsAbortScenario 2 (initOrchState paramsAbortScenario)).resolved = true ∧
    (runOrch paramsAbortScenario 2 (initOrchState paramsAbortScenario)).flows = [0] ∧
    (runOrch paramsAbortScenario 2 (initOrchState paramsAbortScenario)).queue =
      [.fetchDone 0 0 1 []] := by
  decide

theorem allocPhase_keeps_resolution (p : OrchParams) (s : OrchState) (ctx : ℕ)
    (pr : Option PendingRetry) :
    (allocPhase p s ctx pr).resolved = s.resolved ∧
    (allocPhase p s ctx pr).abortedFlag = s.abortedFlag := by
  cases pr with
  | some r => exact ⟨rfl, rfl⟩
  | none =>
    unfold allocPhase
    dsimp only
    split <;> exact ⟨rfl, rfl⟩

theorem hfeStart_keeps_resolution (p : OrchParams) (s : OrchState) (ctx : ℕ)
    (pr : Option PendingRetry) :
    (hfeStart p s ctx pr).resolved = s.resolved ∧
    (hfeStart p s ctx pr).abortedFlag = s.abortedFlag := by
  unfold hfeStart
  split
  · dsimp only
    split
    · exact ⟨rfl, rfl⟩
    · split
      · exact ⟨rfl, rfl⟩
      · exact allocPhase_keeps_resolution p _ ctx pr
  · exact allocPhase_keeps_resolution p _ ctx pr

theorem runWake_keeps_resolution (p : OrchParams) (s : OrchState) (ctx : ℕ)
    (pr : Option PendingRetry) :
    (runWake p s ctx pr).resolved = s.resolved ∧
    (runWake p s ctx pr).abortedFlag = s.abortedFlag := by
  unfold runWake
  split
  · exact ⟨rfl, rfl⟩
  · exact allocPhase_keeps_resolution p s ctx pr

theorem runFetchDone_keeps_resolution (p : OrchParams) (s : OrchState)
    (ctx aL page : ℕ) (prFlows : List ℕ) :
    (runFetchDone p s ctx aL page prFlows).resolved = s.resolved ∧
    (runFetchDone p s ctx aL page prFlows).abortedFlag = s.abortedFlag := by
  constructor <;>
    (unfold runFetchDone
     dsimp only
     repeat' split) <;>
    rfl

theorem dispatchFresh_keeps_resolution (p : OrchParams) :
    ∀ (cs : List ℕ) (fl : ℕ) (s : OrchState),
      (dispatchFresh p cs fl s).resolved = s.resolved ∧
      (dispatchFresh p cs fl s).abortedFlag = s.abortedFlag
  | [], _, s => ⟨rfl, rfl⟩
  | c :: cs, fl, s => by
    unfold dispatchFresh
    by_cases hd : p.retryDistinctFlows = true
    · rw [if_pos hd]
      dsimp only
      split
      · exact ⟨rfl, rfl⟩
      · split
        · exact hfeStart_keeps_resolution p _ c _
        · exact ⟨(dispatchFresh_keeps_resolution p cs (fl - 1) _).1.trans
              (hfeStart_keeps_resolution p _ c _).1,
            (dispatchFresh_keeps_resolution p cs (fl - 1) _).2.trans
              (hfeStart_keeps_resolution p _ c _).2⟩
    · rw [if_neg hd]
      cases hpr : s.pendingRetries with
      | nil =>
        dsimp only
        split
        · exact ⟨rfl, rfl⟩
        · split
          · exact hfeStart_keeps_resolution p _ c _
          · exact ⟨(dispatchFresh_keeps_resolution p cs (fl - 1) _).1.trans
                (hfeStart_keeps_resolution p _ c _).1,
              (dispatchFresh_keeps_resolution p cs (fl - 1) _).2.trans
                (hfeStart_keeps_resolution p _ c _).2⟩
      | cons r rs =>
        dsimp only
        split
        · exact ⟨rfl, rfl⟩
        · split
          · exact hfeStart_keeps_resolution p _ c _
          · exact ⟨(dispatchFresh_keeps_resolution p cs (fl - 1) _).1.trans
                (hfeStart_keeps_resolution p _ c _).1,
              (dispatchFresh_keeps_resolution p cs (fl - 1) _).2.trans
                (hfeStart_keeps_resolution p _ c _).2⟩

theorem dispatchRetries_resolution (p : OrchParams) :
    ∀ (es : List RetryQueueEntry) (s : OrchState) (fc : List ℕ),
      ((dispatchRetries p es s fc).1.resolved = s.resolved ∧
        (dispatchRetries p es s fc).1.abortedFlag = s.abortedFlag) ∨
      ((dispatchRetries p es s fc).1.resolved = true ∧
        (dispatchRetries p es s fc).1.abortedFlag = true)
  | [], s, fc => .inl ⟨rfl, rfl⟩
  | e :: es, s, fc => by
    unfold dispatchRetries
    cases hh : e.avail.head? with
    | none => exact .inr ⟨rfl, rfl⟩
    | some ctx =>
      exact (dispatchRetries_resolution p es _ _).imp
        (fun h => ⟨h.1.trans (hfeStart_keeps_resolution p _ ctx (some e.pr)).1,
          h.2.trans (hfeStart_keeps_resolution p _ ctx (some e.pr)).2⟩)
        id

/-- Forward case analysis of one `startFlows` run: either it leaves the
resolution state untouched, or it resolves via the quiescence check (the
executor is done, no worker is in flight, no retry is pending), or the
forced stop of the no-context-for-retry error fired (resolved together
with the abort). -/
theorem runStartFlows_cases (p : OrchParams) (s : OrchState) :
    ((runStartFlows p s).resolved = s.resolved ∧
      (runStartFlows p s).abortedFlag = s.abortedFlag) ∨
    (s.resolved = false ∧ s.executorDone = true ∧ s.flows = [] ∧
      s.pendingRetries = []) ∨
    ((runStartFlows p s).resolved = true ∧
      (runStartFlows p s).abortedFlag = true) := by
  unfold runStartFlows
  split
  · exact .inl ⟨rfl, rfl⟩
  · next hres =>
    split
    · next hq =>
      simp only [Bool.and_eq_true] at hq
      exact .inr (.inl ⟨Bool.eq_false_iff.mpr hres, hq.1.1,
        List.isEmpty_iff.mp hq.1.2, List.isEmpty_iff.mp hq.2⟩)
    · split
      · exact .inl ⟨rfl, rfl⟩
      · dsimp only
        split
        · split
          · exact (dispatchRetries_resolution p _ _ _).imp id (fun h => .inr h)
          · split
            · exact (dispatchRetries_resolution p _ _ _).imp id (fun h => .inr h)
            · exact (dispatchRetries_resolution p _ _ _).imp
                (fun h => ⟨(dispatchFresh_keeps_resolution p _ _ _).1.trans h.1,
                  (dispatchFresh_keeps_resolution p _ _ _).2.trans h.2⟩)
                (fun h => .inr ⟨(dispatchFresh_keeps_resolution p _ _ _).1.trans h.1,
                  (dispatchFresh_keeps_resolution p _ _ _).2.trans h.2⟩)
        · exact .inl ⟨(dispatchFresh_keeps_resolution p _ _ _).1,
            (dispatchFresh_keeps_resolution p _ _ _).2⟩

theorem runTask_resolution (p : OrchParams) (s : OrchState) (tk : OrchTask)
    (h0 : s.resolved = false) (h1 : (runTask p s tk).resolved = true) :
    (runTask p s tk).abortedFlag = true ∨
      (s.executorDone = true ∧ s.flows = [] ∧ s.pendingRetries = []) := by
  cases tk with
  | startFlows =>
    rcases runStartFlows_cases p s with ⟨ha, _⟩ | ⟨_, h2, h3, h4⟩ | ⟨_, hb⟩
    · have h1' : (runStartFlows p s).resolved = true := h1
      rw [ha, h0] at h1'
      exact absurd h1' Bool.false_ne_true
    · exact .inr ⟨h2, h3, h4⟩
    · exact .inl hb
  | wake ctx pr =>
    have h1' : (runWake p s ctx pr).resolved = true := h1
    rw [(runWake_keeps_resolution p s ctx pr).1, h0] at h1'
    exact absurd h1' Bool.false_ne_true
  | fetchDone ctx aL page prFlows =>
    have h1' : (runFetchDone p s ctx aL page prFlows).resolved = true := h1
    rw [(runFetchDone_keeps_resolution p s ctx aL page prFlows).1, h0] at h1'
    exact absurd h1' Bool.false_ne_true

/-- Claim C2, amended: one event-loop step can move the orchestrator
promise from unresolved to resolved only because (a) the abort signal was
delivered at this step (in which case it resolves immediately, even while
executor invocations are in flight — see the counterexample above), or
(b) the dispatch loop observed quiescence: the executor had signalled
`done`, no worker was in flight and no retry was pending.  (The forced
stop of an internal dispatch error also aborts, and is part of case
(a).) -/
theorem orchestrator_resolution_characterization (p : OrchParams) (s : OrchState)
    (h0 : s.resolved = false) (h1 : (orchStep p s).resolved = true) :
    (orchStep p s).abortedFlag = true ∨
      (s.executorDone = true ∧ s.flows = [] ∧ s.pendingRetries = []) := by
  unfold orchStep at h1 ⊢
  by_cases ha : p.abortAt = some s.stepIdx
  · rw [if_pos ha]
    exact .inl rfl
  · rw [if_neg ha] at h1 ⊢
    dsimp only at h1 ⊢
    cases hq : s.queue with
    | nil =>
      rw [hq] at h1
      dsimp only at h1
      rw [h0] at h1
      exact absurd h1 Bool.false_ne_true
    | cons t ts =>
      rw [hq] at h1
      dsimp only at h1 ⊢
      exact runTask_resolution p _ _ h0 h1

/-- Witness for `orchestrator_resolution_characterization` at a concrete
quiescent state: the scenario-1 parameters with the executor already done
and nothing in flight; the pending `startFlows` tick resolves. -/
theorem orchestrator_resolution_characterization_witness :
    ({ initOrchState paramsScenario1 with executorDone := true } : OrchState).resolved
      = false ∧
    (orchStep paramsScenario1
      { initOrchState paramsScenario1 with executorDone := true }).resolved = true ∧
    ((orchStep paramsScenario1
        { initOrchState paramsScenario1 with executorDone := true }).abortedFlag = true ∨
      (({ initOrchState paramsScenario1 with executorDone := true } : OrchState).executorDone
          = true ∧
        ({ initOrchState paramsScenario1 with executorDone := true } : OrchState).flows = [] ∧
        ({ initOrchState paramsScenario1 with
            executorDone := true } : OrchState).pendingRetries = [])) :=
  ⟨rfl, by decide,
    orchestrator_resolution_characterization paramsScenario1
      { initOrchState paramsScenario1 with executorDone := true } rfl (by decide)⟩

/-! ### Claim C3 — what makes `create` throw -/

/-- Counterexample to claim C3: a user `initThisContext` returning `null`
— which is not a record — does not make `create` throw, because the
constructor's check is `typeof globalContext !== 'object'` and JS has
`typeof null === 'object'`. -/
theorem create_accepts_null_this_context :
    exceptIsOk (createModel
      { rawDefaults with fetchHandler := .fn 0, initThisContext := .fn 1 }
      JSVal.null) = true ∧
    jsIsRecord JSVal.null = false := by
  decide

theorem validateFunField_isNone (k : String) (v : JSVal) :
    (validateFunField k v).2.isNone = !isFunctionTypeof v := by
  cases v <;> rfl

theorem typeof_function_decide (v : JSVal) :
    decide (jsTypeof v = JSType.tFunction) = isFunctionTypeof v := by
  cases v <;> rfl

theorem resolver_missing_bridge (o : RawOptions) :
    requiredResolverMissing (validateOptions o).2 = requiredResolverRawMissing o := by
  unfold requiredResolverMissing requiredResolverRawMissing
  have hpt : (validateOptions o).2.paginationType = validatePaginationType o.paginationType :=
    rfl
  rw [hpt]
  cases validatePaginationType o.paginationType
  · rfl
  · have h1 : (validateOptions o).2.resolveTotalPages =
        (validateFunField "options.resolveTotalPages" o.resolveTotalPages).2 := rfl
    rw [h1, validateFunField_isNone, ← typeof_function_decide]
  · have h1 : (validateOptions o).2.resolveHasMore =
        (validateFunField "options.resolveHasMore" o.resolveHasMore).2 := rfl
    rw [h1, validateFunField_isNone, ← typeof_function_decide]
  · have h1 : (validateOptions o).2.resolveCursor =
        (validateFunField "options.resolveCursor" o.resolveCursor).2 := rfl
    rw [h1, validateFunField_isNone, ← typeof_function_decide]
  · have h1 : (validateOptions o).2.resolveList =
        (validateFunField "options.resolveList" o.resolveList).2 := rfl
    rw [h1, validateFunField_isNone, ← typeof_function_decide]

theorem effective_this_bridge (o : RawOptions) (res : JSVal) :
    effectiveThisContext (validateOptions o).2 res = effectiveRawInit o res := by
  unfold effectiveThisContext effectiveRawInit
  have h1 : (validateOptions o).2.initThisContext =
      (validateInitFun "options.initThisContext" o.initThisContext).2 := rfl
  rw [h1]
  cases o.initThisContext <;> rfl

theorem createThrows_eq (o : RawOptions) (res : JSVal) :
    createThrows o res =
      (!isFunctionTypeof o.fetchHandler || requiredResolverRawMissing o ||
        !(decide (jsTypeof (effectiveRawInit o res) = JSType.tObject))) := by
  have hfh : (validateOptions o).2.fetchHandler =
      (validateFunField "options.fetchHandler" o.fetchHandler).2 := rfl
  by_cases h1 : isFunctionTypeof o.fetchHandler = true
  · have hno : (validateOptions o).2.fetchHandler.isNone = false := by
      rw [hfh, validateFunField_isNone, h1]
      rfl
    by_cases h2 : requiredResolverRawMissing o = true
    · have hcm : createModel o res = .error "A kind-specific resolver is required" := by
        unfold createModel
        dsimp only
        rw [if_neg (by rw [hno]; exact Bool.false_ne_true),
          if_pos (by rw [resolver_missing_bridge]; exact h2)]
      simp [createThrows, exceptIsOk, hcm, h1, h2]
    · by_cases h3 : jsTypeof (effectiveRawInit o res) = JSType.tObject
      · have hcm : ∃ w, createModel o res = .ok w := by
          unfold createModel
          dsimp only
          rw [if_neg (by rw [hno]; exact Bool.false_ne_true),
            if_neg (by rw [resolver_missing_bridge]; simp [h2]),
            if_neg (by rw [effective_this_bridge]; simp [h3])]
          exact ⟨_, rfl⟩
        obtain ⟨w, hcm⟩ := hcm
        simp [createThrows, exceptIsOk, hcm, h1, h2, h3]
      · have hcm : createModel o res = .error "This context should be an object" := by
          unfold createModel
          dsimp only
          rw [if_neg (by rw [hno]; exact Bool.false_ne_true),
            if_neg (by rw [resolver_missing_bridge]; simp [h2]),
            if_pos (by rw [effective_this_bridge]; exact h3)]
        simp [createThrows, exceptIsOk, hcm, h1, h2, h3]
  · have hno : (validateOptions o).2.fetchHandler.isNone = true := by
      rw [hfh, validateFunField_isNone, Bool.eq_false_iff.mpr h1]
      rfl
    have hcm : createModel o res = .error "Property fetchHandler is required" := by
      unfold createModel
      dsimp only
      rw [if_pos hno]
    simp [createThrows, exceptIsOk, hcm, Bool.eq_false_iff.mpr h1]

theorem validateIntervalField_spec (b : Bool) (v : JSVal) :
    ((validateIntervalField b v).1.isSome = !validIntervalVal v) ∧
    (validIntervalVal v = false →
      (validateIntervalField b v).2 = (if b then some defaultInterval else none)) := by
  cases v with
  | num x => cases x <;> simp [validateIntervalField, validIntervalVal, JSNum.isFinite]
  | arr es =>
    cases hp : intervalPairOk es <;>
      simp [validateIntervalField, validIntervalVal, hp]
  | _ => simp [validateIntervalField, validIntervalVal]

theorem validateStrategyField_spec (b : Bool) (v : JSVal) :
    ((validateStrategyField b v).1.isSome = !validStrategyVal v) ∧
    (validStrategyVal v = false →
      (validateStrategyField b v).2 =
        (if b then IntervalStrategy.fixed else IntervalStrategy.dynamic)) := by
  cases v with
  | str s =>
    by_cases hs1 : s = "dynamic" <;> by_cases hs2 : s = "fixed" <;>
      simp [validateStrategyField, validStrategyVal, hs1, hs2]
  | _ => simp [validateStrategyField, validStrategyVal]

theorem validateConcurrency_spec (v : JSVal) :
    ((validateConcurrency v).1.isSome = !validFiniteNumVal v) ∧
    (validFiniteNumVal v = false → (validateConcurrency v).2 = 1) := by
  cases v with
  | num x => cases x <;> simp [validateConcurrency, validFiniteNumVal, JSNum.isFinite]
  | _ => simp [validateConcurrency, validFiniteNumVal]

theorem validatePaginationStart_spec (v : JSVal) :
    ((validatePaginationStart v).1.isSome = !validFiniteNumVal v) ∧
    (validFiniteNumVal v = false → (validatePaginationStart v).2 = 1) := by
  cases v with
  | num x => cases x <;> simp [validatePaginationStart, validFiniteNumVal, JSNum.isFinite]
  | _ => simp [validatePaginationStart, validFiniteNumVal]

theorem validateBoolField_spec (k : String) (d : Bool) (v : JSVal) :
    ((validateBoolField k d v).1.isSome = !validBoolVal v) ∧
    (validBoolVal v = false → (validateBoolField k d v).2 = d) := by
  cases v <;> simp [validateBoolField, validBoolVal]

theorem validateInitFun_spec (k : String) (v : JSVal) :
    ((validateInitFun k v).1.isSome = !validFunVal v) ∧
    (validFunVal v = false → (validateInitFun k v).2 = .defaultFn) := by
  cases v <;> simp [validateInitFun, validFunVal]

theorem validateFunField_spec (k : String) (v : JSVal) :
    ((validateFunField k v).1.isSome = !validFunVal v) ∧
    (validFunVal v = false → (validateFunField k v).2 = none) := by
  cases v <;> simp [validateFunField, validFunVal]

theorem validateEHPNum_spec (k : String) (d : Option ℕ) (v : JSVal) :
    ((validateEHPNum k d v).1.isSome = !validNonNanNumVal v) ∧
    (validNonNanNumVal v = false → (validateEHPNum k d v).2 = d) := by
  cases v with
  | num x => cases x <;> simp [validateEHPNum, validNonNanNumVal]
  | _ => simp [validateEHPNum, validNonNanNumVal]

theorem validateLogger_spec (v : JSVal) :
    ((validateLogger v).1.isSome = !validLoggerVal v) ∧
    (validLoggerVal v = false → (validateLogger v).2 = defaultLogger) := by
  cases v <;> simp [validateLogger, validLoggerVal]

/-- Claim C3, amended: `create(options)` throws synchronously if and only
if `fetchHandler` is not a function, or the resolver required by the
*validated* pagination kind is not a function, or the effective
`initThisContext` result has JS `typeof` different from `'object'` — so
`null` (and arrays), though not records, do *not* throw; every invalid
value of another validated option field yields a `validationWarning` and
falls back to the documented default, except `paginationType`, whose
invalid values (e.g. any string) silently become the default kind `None`
with no warning. -/
theorem create_throw_characterization :
    (∀ (o : RawOptions) (res : JSVal),
        createThrows o res =
          (!isFunctionTypeof o.fetchHandler || requiredResolverRawMissing o ||
            !(decide (jsTypeof (effectiveRawInit o res) = JSType.tObject)))) ∧
    (∀ v : JSVal, ((validateIntervalField true v).1.isSome = !validIntervalVal v) ∧
        (validIntervalVal v = false →
          (validateIntervalField true v).2 = some defaultInterval)) ∧
    (∀ v : JSVal, ((validateIntervalField false v).1.isSome = !validIntervalVal v) ∧
        (validIntervalVal v = false → (validateIntervalField false v).2 = none)) ∧
    (∀ (b : Bool) (v : JSVal),
        ((validateStrategyField b v).1.isSome = !validStrategyVal v) ∧
        (validStrategyVal v = false →
          (validateStrategyField b v).2 =
            (if b then IntervalStrategy.fixed else IntervalStrategy.dynamic))) ∧
    (∀ v : JSVal, ((validateConcurrency v).1.isSome = !validFiniteNumVal v) ∧
        (validFiniteNumVal v = false → (validateConcurrency v).2 = 1)) ∧
    (∀ v : JSVal, ((validatePaginationStart v).1.isSome = !validFiniteNumVal v) ∧
        (validFiniteNumVal v = false → (validatePaginationStart v).2 = 1)) ∧
    (∀ (k : String) (d : Bool) (v : JSVal),
        ((validateBoolField k d v).1.isSome = !validBoolVal v) ∧
        (validBoolVal v = false → (validateBoolField k d v).2 = d)) ∧
    (∀ (k : String) (v : JSVal),
        ((validateInitFun k v).1.isSome = !validFunVal v) ∧
        (validFunVal v = false → (validateInitFun k v).2 = .defaultFn)) ∧
    (∀ (k : String) (v : JSVal),
        ((validateFunField k v).1.isSome = !validFunVal v) ∧
        (validFunVal v = false → (validateFunField k v).2 = none)) ∧
    (∀ (k : String) (d : Option ℕ) (v : JSVal),
        ((validateEHPNum k d v).1.isSome = !validNonNanNumVal v) ∧
        (validNonNanNumVal v = false → (validateEHPNum k d v).2 = d)) ∧
    (∀ v : JSVal, ((validateLogger v).1.isSome = !validLoggerVal v) ∧
        (validLoggerVal v = false → (validateLogger v).2 = defaultLogger)) ∧
    (∀ s : String, validatePaginationType (.str s) = PaginationType.noneKind) :=
  ⟨createThrows_eq,
    validateIntervalField_spec true,
    validateIntervalField_spec false,
    validateStrategyField_spec,
    validateConcurrency_spec,
    validatePaginationStart_spec,
    validateBoolField_spec,
    validateInitFun_spec,
    validateFunField_spec,
    validateEHPNum_spec,
    validateLogger_spec,
    fun _ => rfl⟩

/-- Witness for `create_throw_characterization`: an invalid (null-valued)
`interval` is warned about and replaced by the default `[1000, 2000]`. -/
theorem create_throw_characterization_witness :
    validIntervalVal JSVal.null = false ∧
    (validateIntervalField true JSVal.null).2 = some defaultInterval :=
  ⟨by decide, (create_throw_characterization.2.1 JSVal.null).2 (by decide)⟩

/-! ### Claim C5 — distinct-flows retries: bookkeeping lemmas -/

theorem ctxsFor_append (l : List (ℕ × ℕ)) (P c q : ℕ) :
    ctxsFor (l ++ [(P, c)]) q = ctxsFor l q ++ (if P = q then [c] else []) := by
  by_cases h : P = q <;> simp [ctxsFor, List.filter_append, h]

theorem ctxsFor_high (l : List (ℕ × ℕ)) (n q : ℕ) (hlt : ∀ e ∈ l, e.1 < n)
    (hq : n ≤ q) : ctxsFor l q = [] := by
  have hf : l.filter (fun e => e.1 = q) = [] := by
    rw [List.filter_eq_nil_iff]
    intro e he
    have := hlt e he
    simp only [decide_eq_true_eq]
    omega
  simp [ctxsFor, hf]

theorem ctxsFor_ne_nil_mem (l : List (ℕ × ℕ)) (q : ℕ) (h : ctxsFor l q ≠ []) :
    ∃ c, (q, c) ∈ l := by
  cases hx : ctxsFor l q with
  | nil => exact absurd hx h
  | cons c rest =>
    have hc : c ∈ ctxsFor l q := by rw [hx]; exact List.mem_cons_self c rest
    simp only [ctxsFor, List.mem_map, List.mem_filter, decide_eq_true_eq] at hc
    obtain ⟨e, ⟨hel, hq1⟩, hsnd⟩ := hc
    refine ⟨c, ?_⟩
    have : e = (q, c) := by
      cases e
      simp only at hq1 hsnd
      rw [hq1, hsnd]
    rw [← this]
    exact hel

theorem page_lt_of_ctxsFor_ne_nil (l : List (ℕ × ℕ)) (n q : ℕ)
    (hlt : ∀ e ∈ l, e.1 < n) (h : ctxsFor l q ≠ []) : q < n := by
  obtain ⟨c, hc⟩ := ctxsFor_ne_nil_mem l q h
  exact hlt (q, c) hc

theorem handleCount_append_task (prs : List PendingRetry) (queue : List OrchTask)
    (t : OrchTask) (q : ℕ) :
    handleCount prs (queue ++ [t]) q =
      handleCount prs queue q + (if taskHandlePage t = some q then 1 else 0) := by
  simp only [handleCount, List.filterMap_append, List.count_append]
  cases ht : taskHandlePage t with
  | none => simp [List.filterMap, ht]
  | some P =>
    by_cases hP : P = q <;>
      simp [List.filterMap, ht, List.count_cons, hP] <;> omega

theorem handleCount_middle_pr (l₁ l₂ : List PendingRetry) (r : PendingRetry)
    (queue : List OrchTask) (q : ℕ) :
    handleCount (l₁ ++ r :: l₂) queue q =
      handleCount (l₁ ++ l₂) queue q + (if r.page = q then 1 else 0) := by
  by_cases h : r.page = q <;>
    simp [handleCount, List.count_append, List.count_cons, h] <;> omega

theorem handleCount_middle_task (prs : List PendingRetry) (l₁ l₂ : List OrchTask)
    (t : OrchTask) (q : ℕ) :
    handleCount prs (l₁ ++ t :: l₂) q =
      handleCount prs (l₁ ++ l₂) q + (if taskHandlePage t = some q then 1 else 0) := by
  simp only [handleCount, List.filterMap_append, List.filterMap_cons]
  cases ht : taskHandlePage t with
  | none => simp
  | some P =>
    by_cases hP : P = q <;> simp [List.count_append, List.count_cons, hP] <;> omega

theorem handleCount_pr_pos (prs : List PendingRetry) (queue : List OrchTask)
    (r : PendingRetry) (hr : r ∈ prs) : 0 < handleCount prs queue r.page := by
  have : 0 < (prs.map PendingRetry.page).count r.page :=
    List.count_pos_iff.mpr (List.mem_map_of_mem _ hr)
  simp only [handleCount]
  omega

theorem handleCount_task_pos (prs : List PendingRetry) (queue : List OrchTask)
    (t : OrchTask) (P : ℕ) (ht : t ∈ queue) (hp : taskHandlePage t = some P) :
    0 < handleCount prs queue P := by
  have h1 : P ∈ queue.filterMap taskHandlePage := List.mem_filterMap.mpr ⟨t, ht, hp⟩
  have h2 := List.count_pos_iff.mpr h1
  simp only [handleCount]
  omega

theorem popAt_decomp (l : List OrchTask) :
    ∀ i, i < l.length →
      ∃ l₁ l₂, l = l₁ ++ l.getD i .startFlows :: l₂ ∧ l.eraseIdx i = l₁ ++ l₂ := by
  induction l with
  | nil => intro i hi; simp at hi
  | cons x xs ih =>
    intro i hi
    cases i with
    | zero => exact ⟨[], xs, by simp [List.getD], by simp [List.eraseIdx]⟩
    | succ j =>
      obtain ⟨l₁, l₂, hdec, herase⟩ := ih j (by simpa using hi)
      refine ⟨x :: l₁, l₂, ?_, ?_⟩
      · simp only [List.getD_cons_succ, List.cons_append]
        rw [← hdec]
      · simp only [List.eraseIdx_cons_succ, List.cons_append]
        rw [herase]

theorem eraseP_rid_decomp (l : List PendingRetry) (r : PendingRetry) (hr : r ∈ l)
    (hnd : (l.map PendingRetry.rid).Nodup) :
    ∃ l₁ l₂, l = l₁ ++ r :: l₂ ∧
      l.eraseP (fun x => x.rid = r.rid) = l₁ ++ l₂ := by
  induction l with
  | nil => cases hr
  | cons x xs ih =>
    by_cases hx : x.rid = r.rid
    · have hxr : x = r := by
        rcases List.mem_cons.mp hr with h | h
        · exact h.symm
        · exfalso
          have hmem : r.rid ∈ xs.map PendingRetry.rid := List.mem_map_of_mem _ h
          rw [← hx] at hmem
          exact (List.nodup_cons.mp (by simpa using hnd)).1 hmem
      subst hxr
      exact ⟨[], xs, rfl, by simp [List.eraseP_cons]⟩
    · have hrxs : r ∈ xs := by
        rcases List.mem_cons.mp hr with h | h
        · exact absurd (h ▸ rfl) hx
        · exact h
      obtain ⟨l₁, l₂, hdec, herase⟩ :=
        ih hrxs (List.nodup_cons.mp (by simpa using hnd)).2
      refine ⟨x :: l₁, l₂, by rw [List.cons_append, ← hdec], ?_⟩
      simp [List.eraseP_cons, hx, herase]

theorem mem_eraseP_rid (l : List PendingRetry) (x : PendingRetry) (rid : ℕ)
    (hx : x ∈ l) (hne : ¬(x.rid = rid)) :
    x ∈ l.eraseP (fun r => r.rid = rid) := by
  induction l with
  | nil => cases hx
  | cons y ys ih =>
    rcases List.mem_cons.mp hx with h | h
    · subst h
      simp [List.eraseP_cons, hne]
    · by_cases hy : y.rid = rid
      · simpa [List.eraseP_cons, hy] using h
      · have hdm : decide (y.rid = rid) = false := by simpa using hy
        simp only [List.eraseP_cons, hdm, cond_false]
        exact List.mem_cons.mpr (.inr (ih h))

theorem ctxsFor_append_other (l : List (ℕ × ℕ)) (P c q : ℕ) (h : ¬(P = q)) :
    ctxsFor (l ++ [(P, c)]) q = ctxsFor l q := by
  rw [ctxsFor_append]
  simp [h]

theorem count_zero_not_mem (l : List ℕ) (q : ℕ) (h : l.count q = 0) : q ∉ l := by
  intro hm
  have := List.count_pos_iff.mpr hm
  omega

theorem pr_page_ne_of_count_zero (prs : List PendingRetry) (queue : List OrchTask)
    (P : ℕ) (hcount : handleCount prs queue P = 0) :
    (∀ r ∈ prs, ¬(r.page = P)) ∧ (∀ t ∈ queue, ¬(taskHandlePage t = some P)) := by
  constructor
  · intro r hr hP
    have h1 := handleCount_pr_pos prs queue r hr
    rw [hP] at h1
    omega
  · intro t ht hP
    have h1 := handleCount_task_pos prs queue t P ht hP
    omega

/-- A page that has at least one live handle has been attempted, so its
page number is below `nextPage`. -/
theorem handle_imp_attempted (p : OrchParams) (s : OrchState) (hinv : OrchInv p s)
    (q : ℕ) (h : 0 < handleCount s.pendingRetries s.queue q) :
    ctxsFor s.log q ≠ [] := by
  rcases Nat.lt_or_ge 0 ((s.pendingRetries.map PendingRetry.page).count q) with hp | hp
  · obtain ⟨r, hr, hpage⟩ := List.mem_map.mp (List.count_pos_iff.mp hp)
    obtain ⟨hc, hne, -, -⟩ := hinv.prOk r hr
    rw [← hpage, hc]
    exact hne
  · have hq : 0 < (s.queue.filterMap taskHandlePage).count q := by
      simp only [handleCount] at h
      omega
    obtain ⟨t, ht, htp⟩ := List.mem_filterMap.mp (List.count_pos_iff.mp hq)
    cases t with
    | startFlows => exact absurd htp (by simp [taskHandlePage])
    | wake ctx pr =>
      cases pr with
      | none => exact absurd htp (by simp [taskHandlePage])
      | some r =>
        have hpq : r.page = q := by simpa [taskHandlePage] using htp
        obtain ⟨hc, hne, -, -, -⟩ := hinv.wakeOk ctx r ht
        rw [← hpq, hc]
        exact hne
    | fetchDone ctx aL page fl =>
      have hpq : page = q := by simpa [taskHandlePage] using htp
      obtain ⟨hc, -, -⟩ := hinv.fdOk ctx aL page fl ht
      rw [← hpq, hc]
      simp

/-- A failed page has been attempted. -/
theorem failed_imp_attempted (p : OrchParams) (s : OrchState) (hinv : OrchInv p s)
    (q : ℕ) (h : q ∈ s.failedPageList) : ctxsFor s.log q ≠ [] := by
  obtain ⟨hlen, -⟩ := hinv.failedOk q h
  intro hnil
  rw [hnil] at hlen
  simp at hlen

/-- Pages at or above `nextPage` have no live handle and are not failed. -/
theorem high_count_zero (p : OrchParams) (s : OrchState) (hinv : OrchInv p s)
    (q : ℕ) (hq : s.nextPage ≤ q) :
    handleCount s.pendingRetries s.queue q = 0 ∧ s.failedPageList.count q = 0 := by
  constructor
  · by_contra h
    have hpos := Nat.pos_of_ne_zero h
    have hne := handle_imp_attempted p s hinv q hpos
    have := page_lt_of_ctxsFor_ne_nil s.log s.nextPage q hinv.pagesLt hne
    omega
  · by_contra h
    have hpos := Nat.pos_of_ne_zero h
    have hmem := List.count_pos_iff.mp hpos
    have hne := failed_imp_attempted p s hinv q hmem
    have := page_lt_of_ctxsFor_ne_nil s.log s.nextPage q hinv.pagesLt hne
    omega

/-- The invariant only reads six fields of the state; any step that leaves
them unchanged preserves it. -/
theorem inv_of_eqs (p : OrchParams) (s s' : OrchState) (hinv : OrchInv p s)
    (hlog : s'.log = s.log) (hnp : s'.nextPage = s.nextPage)
    (hpr : s'.pendingRetries = s.pendingRetries)
    (hq : s'.queue = s.queue)
    (hf : s'.failedPageList = s.failedPageList)
    (hr : s'.nextRid = s.nextRid) :
    OrchInv p s' := by
  refine ⟨?_, ?_, ?_, ?_, ?_, ?_, ?_, ?_⟩
  · rw [hlog, hnp]; exact hinv.pagesLt
  · rw [hpr, hlog]; exact hinv.prOk
  · rw [hq, hlog]; exact hinv.wakeOk
  · rw [hq, hlog]; exact hinv.fdOk
  · rw [hf, hlog]; exact hinv.failedOk
  · rw [hpr, hq, hf]; exact hinv.counts
  · rw [hpr]; exact hinv.ridsNodup
  · rw [hpr, hr]; exact hinv.ridLt

/-- Enqueueing a task that carries no page handle (a `startFlows` tick or
a retry-less wake) preserves the invariant. -/
theorem inv_append_task_nohandle (p : OrchParams) (s s' : OrchState)
    (t : OrchTask) (hinv : OrchInv p s)
    (ht : taskHandlePage t = none)
    (hlog : s'.log = s.log) (hnp : s'.nextPage = s.nextPage)
    (hpr : s'.pendingRetries = s.pendingRetries)
    (hq : s'.queue = s.queue ++ [t])
    (hf : s'.failedPageList = s.failedPageList)
    (hr : s'.nextRid = s.nextRid) :
    OrchInv p s' := by
  refine ⟨?_, ?_, ?_, ?_, ?_, ?_, ?_, ?_⟩
  · rw [hlog, hnp]; exact hinv.pagesLt
  · rw [hpr, hlog]; exact hinv.prOk
  · rw [hq, hlog]
    intro ctx r hmem
    rcases List.mem_append.mp hmem with h | h
    · exact hinv.wakeOk ctx r h
    · have hh := List.mem_singleton.mp h
      rw [← hh] at ht
      simp [taskHandlePage] at ht
  · rw [hq, hlog]
    intro ctx aL page fl hmem
    rcases List.mem_append.mp hmem with h | h
    · exact hinv.fdOk ctx aL page fl h
    · have hh := List.mem_singleton.mp h
      rw [← hh] at ht
      simp [taskHandlePage] at ht
  · rw [hf, hlog]; exact hinv.failedOk
  · rw [hpr, hq, hf]
    intro q
    rw [handleCount_append_task, ht]
    have h0 : (if (none : Option ℕ) = some q then 1 else 0) = 0 := by simp
    rw [h0]
    have := hinv.counts q
    omega
  · rw [hpr]; exact hinv.ridsNodup
  · rw [hpr, hr]; exact hinv.ridLt

/-- Enqueueing a sleeping retry (`wake` with a retry record) preserves the
invariant, provided the retry carries the page's attempt history, the
target context is new to it, and the page currently has no other live
handle. -/
theorem inv_append_wake_some (p : OrchParams) (s s' : OrchState) (ctx : ℕ)
    (r : PendingRetry) (hinv : OrchInv p s)
    (hctxs : ctxsFor s.log r.page = r.flows) (hne : r.flows ≠ [])
    (hnd : r.flows.Nodup) (haL : r.attemptsLeft + r.flows.length = p.retryLimit)
    (hctx : ctx ∉ r.flows)
    (hcount : handleCount s.pendingRetries s.queue r.page = 0)
    (hfail : s.failedPageList.count r.page = 0)
    (hlog : s'.log = s.log) (hnp : s'.nextPage = s.nextPage)
    (hpr : s'.pendingRetries = s.pendingRetries)
    (hq : s'.queue = s.queue ++ [.wake ctx (some r)])
    (hf : s'.failedPageList = s.failedPageList)
    (hr : s'.nextRid = s.nextRid) :
    OrchInv p s' := by
  refine ⟨?_, ?_, ?_, ?_, ?_, ?_, ?_, ?_⟩
  · rw [hlog, hnp]; exact hinv.pagesLt
  · rw [hpr, hlog]; exact hinv.prOk
  · rw [hq, hlog]
    intro c r' hmem
    rcases List.mem_append.mp hmem with h | h
    · exact hinv.wakeOk c r' h
    · have hh := List.mem_singleton.mp h
      injection hh with h1 h2
      injection h2 with h3
      subst h3
      subst h1
      exact ⟨hctxs, hne, hnd, haL, hctx⟩
  · rw [hq, hlog]
    intro c aL page fl hmem
    rcases List.mem_append.mp hmem with h | h
    · exact hinv.fdOk c aL page fl h
    · exact OrchTask.noConfusion (List.mem_singleton.mp h)
  · rw [hf, hlog]; exact hinv.failedOk
  · rw [hpr, hq, hf]
    intro q
    rw [handleCount_append_task]
    have hth : taskHandlePage (OrchTask.wake ctx (some r)) = some r.page := rfl
    rw [hth]
    by_cases hq2 : r.page = q
    · subst hq2
      have h1 : (if (some r.page : Option ℕ) = some r.page then 1 else 0) = 1 := by
        simp
      rw [h1]
      omega
    · have h1 : (if (some r.page : Option ℕ) = some q then 1 else 0) = 0 := by
        simp [hq2]
      rw [h1]
      have := hinv.counts q
      omega
  · rw [hpr]; exact hinv.ridsNodup
  · rw [hpr, hr]; exact hinv.ridLt

/-- The fresh-page half of `allocPhase`, in equation form: allocating
`nextPage` to a worker, logging the attempt and starting its fetch
preserves the invariant. -/
theorem inv_alloc_fresh_general (p : OrchParams) (s s' : OrchState) (ctx : ℕ)
    (hinv : OrchInv p s)
    (hlog : s'.log = s.log ++ [(s.nextPage, ctx)])
    (hnp : s'.nextPage = s.nextPage + 1)
    (hpr : s'.pendingRetries = s.pendingRetries)
    (hq : s'.queue = s.queue ++ [.fetchDone ctx p.retryLimit s.nextPage []])
    (hf : s'.failedPageList = s.failedPageList)
    (hr : s'.nextRid = s.nextRid) :
    OrchInv p s' := by
  obtain ⟨hz1, hz2⟩ := high_count_zero p s hinv s.nextPage (le_refl _)
  have hnil : ctxsFor s.log s.nextPage = [] :=
    ctxsFor_high s.log s.nextPage s.nextPage hinv.pagesLt (le_refl _)
  have hne2 := pr_page_ne_of_count_zero s.pendingRetries s.queue s.nextPage hz1
  refine ⟨?_, ?_, ?_, ?_, ?_, ?_, ?_, ?_⟩
  · rw [hlog, hnp]
    intro e he
    rcases List.mem_append.mp he with h | h
    · have := hinv.pagesLt e h; omega
    · rw [List.mem_singleton.mp h]
      exact Nat.lt_succ_self _
  · rw [hpr, hlog]
    intro r hr₂
    have hrp : ¬(s.nextPage = r.page) := fun h => hne2.1 r hr₂ h.symm
    rw [ctxsFor_append_other _ _ _ _ hrp]
    exact hinv.prOk r hr₂
  · rw [hq, hlog]
    intro c r hmem
    rcases List.mem_append.mp hmem with h | h
    · have hrp : ¬(s.nextPage = r.page) := fun hh => hne2.2 _ h (by rw [hh]; rfl)
      rw [ctxsFor_append_other _ _ _ _ hrp]
      exact hinv.wakeOk c r h
    · exact OrchTask.noConfusion (List.mem_singleton.mp h)
  · rw [hq, hlog]
    intro c aL page fl hmem
    rcases List.mem_append.mp hmem with h | h
    · have hrp : ¬(s.nextPage = page) := fun hh => hne2.2 _ h (by rw [hh]; rfl)
      rw [ctxsFor_append_other _ _ _ _ hrp]
      exact hinv.fdOk c aL page fl h
    · have hh := List.mem_singleton.mp h
      injection hh with h1 h2 h3 h4
      subst h1
      subst h2
      subst h3
      subst h4
      refine ⟨?_, by simp, by simp⟩
      rw [ctxsFor_append, hnil]
      simp
  · rw [hf, hlog]
    intro q hqm
    have hlow : ctxsFor s.log q ≠ [] := failed_imp_attempted p s hinv q hqm
    have hqlt : q < s.nextPage :=
      page_lt_of_ctxsFor_ne_nil s.log s.nextPage q hinv.pagesLt hlow
    rw [ctxsFor_append_other _ _ _ _ (by omega)]
    exact hinv.failedOk q hqm
  · rw [hpr, hq, hf]
    intro q
    rw [handleCount_append_task]
    have hth : taskHandlePage (OrchTask.fetchDone ctx p.retryLimit s.nextPage [])
        = some s.nextPage := rfl
    rw [hth]
    by_cases hq2 : s.nextPage = q
    · subst hq2
      have h1 : (if (some s.nextPage : Option ℕ) = some s.nextPage then 1 else 0)
          = 1 := by simp
      rw [h1]
      omega
    · have h1 : (if (some s.nextPage : Option ℕ) = some q then 1 else 0) = 0 := by
        simp [hq2]
      rw [h1]
      have := hinv.counts q
      omega
  · rw [hpr]; exact hinv.ridsNodup
  · rw [hpr, hr]; exact hinv.ridLt

/-- The retry half of `allocPhase`, in equation form: dispatching a retry
whose record carries the page's attempt history onto a context new to it,
while the page has no other live handle, preserves the invariant. -/
theorem inv_alloc_retry_general (p : OrchParams) (s s' : OrchState) (ctx : ℕ)
    (r : PendingRetry) (hinv : OrchInv p s)
    (hctxs : ctxsFor s.log r.page = r.flows) (hne : r.flows ≠ [])
    (hnd : r.flows.Nodup) (haL : r.attemptsLeft + r.flows.length = p.retryLimit)
    (hctx : ctx ∉ r.flows)
    (hcount : handleCount s.pendingRetries s.queue r.page = 0)
    (hfail : s.failedPageList.count r.page = 0)
    (hlog : s'.log = s.log ++ [(r.page, ctx)])
    (hnp : s'.nextPage = s.nextPage)
    (hpr : s'.pendingRetries = s.pendingRetries)
    (hq : s'.queue = s.queue ++ [.fetchDone ctx r.attemptsLeft r.page r.flows])
    (hf : s'.failedPageList = s.failedPageList)
    (hr : s'.nextRid = s.nextRid) :
    OrchInv p s' := by
  have hplt : r.page < s.nextPage :=
    page_lt_of_ctxsFor_ne_nil s.log s.nextPage r.page hinv.pagesLt
      (by rw [hctxs]; exact hne)
  have hne2 := pr_page_ne_of_count_zero s.pendingRetries s.queue r.page hcount
  have hnodup2 : (r.flows ++ [ctx]).Nodup := by
    rw [List.nodup_append]
    exact ⟨hnd, List.nodup_singleton _,
      fun a ha hb => hctx ((List.mem_singleton.mp hb) ▸ ha)⟩
  refine ⟨?_, ?_, ?_, ?_, ?_, ?_, ?_, ?_⟩
  · rw [hlog, hnp]
    intro e he
    rcases List.mem_append.mp he with h | h
    · exact hinv.pagesLt e h
    · rw [List.mem_singleton.mp h]
      exact hplt
  · rw [hpr, hlog]
    intro r' hr₂
    have hrp : ¬(r.page = r'.page) := fun h => hne2.1 r' hr₂ h.symm
    rw [ctxsFor_append_other _ _ _ _ hrp]
    exact hinv.prOk r' hr₂
  · rw [hq, hlog]
    intro c r' hmem
    rcases List.mem_append.mp hmem with h | h
    · have hrp : ¬(r.page = r'.page) := fun hh => hne2.2 _ h (by rw [hh]; rfl)
      rw [ctxsFor_append_other _ _ _ _ hrp]
      exact hinv.wakeOk c r' h
    · exact OrchTask.noConfusion (List.mem_singleton.mp h)
  · rw [hq, hlog]
    intro c aL page fl hmem
    rcases List.mem_append.mp hmem with h | h
    · have hrp : ¬(r.page = page) := fun hh => hne2.2 _ h (by rw [hh]; rfl)
      rw [ctxsFor_append_other _ _ _ _ hrp]
      exact hinv.fdOk c aL page fl h
    · have hh := List.mem_singleton.mp h
      injection hh with h1 h2 h3 h4
      subst h1
      subst h2
      subst h3
      subst h4
      refine ⟨?_, hnodup2, haL⟩
      rw [ctxsFor_append]
      rw [hctxs]
      simp
  · rw [hf, hlog]
    intro q hqm
    have hq2 : ¬(r.page = q) := by
      intro hh
      exact count_zero_not_mem _ _ hfail (hh ▸ hqm)
    rw [ctxsFor_append_other _ _ _ _ hq2]
    exact hinv.failedOk q hqm
  · rw [hpr, hq, hf]
    intro q
    rw [handleCount_append_task]
    have hth : taskHandlePage (OrchTask.fetchDone ctx r.attemptsLeft r.page r.flows)
        = some r.page := rfl
    rw [hth]
    by_cases hq2 : r.page = q
    · subst hq2
      have h1 : (if (some r.page : Option ℕ) = some r.page then 1 else 0) = 1 := by
        simp
      rw [h1]
      omega
    · have h1 : (if (some r.page : Option ℕ) = some q then 1 else 0) = 0 := by
        simp [hq2]
      rw [h1]
      have := hinv.counts q
      omega
  · rw [hpr]; exact hinv.ridsNodup
  · rw [hpr, hr]; exact hinv.ridLt

/-- Starting a fresh executor invocation preserves the invariant. -/
theorem inv_allocPhase_fresh (p : OrchParams) (s : OrchState) (ctx : ℕ)
    (hinv : OrchInv p s) : OrchInv p (allocPhase p s ctx none) := by
  unfold allocPhase
  dsimp only
  split
  · exact inv_alloc_fresh_general p s _ ctx hinv rfl rfl rfl rfl rfl rfl
  · exact inv_alloc_fresh_general p s _ ctx hinv rfl rfl rfl rfl rfl rfl

/-- Starting a retry executor invocation preserves the invariant. -/
theorem inv_allocPhase_retry (p : OrchParams) (s : OrchState) (ctx : ℕ)
    (r : PendingRetry) (hinv : OrchInv p s)
    (hctxs : ctxsFor s.log r.page = r.flows) (hne : r.flows ≠ [])
    (hnd : r.flows.Nodup) (haL : r.attemptsLeft + r.flows.length = p.retryLimit)
    (hctx : ctx ∉ r.flows)
    (hcount : handleCount s.pendingRetries s.queue r.page = 0)
    (hfail : s.failedPageList.count r.page = 0) :
    OrchInv p (allocPhase p s ctx (some r)) := by
  unfold allocPhase
  dsimp only
  exact inv_alloc_retry_general p s _ ctx r hinv hctxs hne hnd haL hctx hcount
    hfail rfl rfl rfl rfl rfl rfl

/-- The worker-start helper never touches the pending-retry list. -/
theorem hfeStart_pendingRetries (p : OrchParams) (s : OrchState) (ctx : ℕ)
    (pr : Option PendingRetry) :
    (hfeStart p s ctx pr).pendingRetries = s.pendingRetries := by
  unfold hfeStart allocPhase
  cases pr <;> dsimp only <;> (repeat' split) <;> rfl

/-- Starting a fresh worker (sleeping, dropping, or invoking the executor)
preserves the invariant. -/
theorem inv_hfeStart_fresh (p : OrchParams) (s : OrchState) (ctx : ℕ)
    (hinv : OrchInv p s) : OrchInv p (hfeStart p s ctx none) := by
  unfold hfeStart
  dsimp only
  by_cases h1 : ctx ∈ s.hasLastExec
  · rw [if_pos h1]
    by_cases h2 : p.sleepHappens s.sleepIdx = true
    · rw [if_pos h2]
      exact inv_append_task_nohandle p s _ (OrchTask.wake ctx none) hinv rfl
        rfl rfl rfl rfl rfl rfl
    · rw [if_neg h2]
      by_cases h3 : (s.executorDone && Option.isNone (none : Option PendingRetry))
          = true
      · rw [if_pos h3]
        exact inv_append_task_nohandle p s _ OrchTask.startFlows hinv rfl
          rfl rfl rfl rfl rfl rfl
      · rw [if_neg h3]
        exact inv_allocPhase_fresh p _ ctx
          (inv_of_eqs p s _ hinv rfl rfl rfl rfl rfl rfl)
  · rw [if_neg h1]
    exact inv_allocPhase_fresh p _ ctx
      (inv_of_eqs p s _ hinv rfl rfl rfl rfl rfl rfl)

/-- Starting a retry worker preserves the invariant, under the handle
facts of the dispatched retry. -/
theorem inv_hfeStart_retry (p : OrchParams) (s : OrchState) (ctx : ℕ)
    (r : PendingRetry) (hinv : OrchInv p s)
    (hctxs : ctxsFor s.log r.page = r.flows) (hne : r.flows ≠ [])
    (hnd : r.flows.Nodup) (haL : r.attemptsLeft + r.flows.length = p.retryLimit)
    (hctx : ctx ∉ r.flows)
    (hcount : handleCount s.pendingRetries s.queue r.page = 0)
    (hfail : s.failedPageList.count r.page = 0) :
    OrchInv p (hfeStart p s ctx (some r)) := by
  unfold hfeStart
  dsimp only
  by_cases h1 : ctx ∈ s.hasLastExec
  · rw [if_pos h1]
    by_cases h2 : p.sleepHappens s.sleepIdx = true
    · rw [if_pos h2]
      exact inv_append_wake_some p s _ ctx r hinv hctxs hne hnd haL hctx hcount
        hfail rfl rfl rfl rfl rfl rfl
    · rw [if_neg h2]
      have h3 : ¬((s.executorDone && Option.isNone (some r)) = true) := by simp
      rw [if_neg h3]
      exact inv_allocPhase_retry p _ ctx r
        (inv_of_eqs p s _ hinv rfl rfl rfl rfl rfl rfl) hctxs hne hnd haL hctx
        hcount hfail
  · rw [if_neg h1]
    exact inv_allocPhase_retry p _ ctx r
      (inv_of_eqs p s _ hinv rfl rfl rfl rfl rfl rfl) hctxs hne hnd haL hctx
      hcount hfail

/-- Waking a fresh worker preserves the invariant. -/
theorem inv_runWake_none (p : OrchParams) (s : OrchState) (ctx : ℕ)
    (hinv : OrchInv p s) : OrchInv p (runWake p s ctx none) := by
  unfold runWake
  by_cases h1 : (s.abortedFlag
      || (s.executorDone && Option.isNone (none : Option PendingRetry))) = true
  · rw [if_pos h1]
    exact inv_append_task_nohandle p s _ OrchTask.startFlows hinv rfl
      rfl rfl rfl rfl rfl rfl
  · rw [if_neg h1]
    exact inv_allocPhase_fresh p s ctx hinv

/-- Waking a sleeping retry preserves the invariant, under the handle
facts of the retry. -/
theorem inv_runWake_some (p : OrchParams) (s : OrchState) (ctx : ℕ)
    (r : PendingRetry) (hinv : OrchInv p s)
    (hctxs : ctxsFor s.log r.page = r.flows) (hne : r.flows ≠ [])
    (hnd : r.flows.Nodup) (haL : r.attemptsLeft + r.flows.length = p.retryLimit)
    (hctx : ctx ∉ r.flows)
    (hcount : handleCount s.pendingRetries s.queue r.page = 0)
    (hfail : s.failedPageList.count r.page = 0) :
    OrchInv p (runWake p s ctx (some r)) := by
  unfold runWake
  by_cases h1 : (s.abortedFlag
      || (s.executorDone && Option.isNone (some r))) = true
  · rw [if_pos h1]
    exact inv_append_task_nohandle p s _ OrchTask.startFlows hinv rfl
      rfl rfl rfl rfl rfl rfl
  · rw [if_neg h1]
    exact inv_allocPhase_retry p s ctx r hinv hctxs hne hnd haL hctx hcount hfail

/-- The terminal-failure branch of the fetch continuation, in equation
form: recording the failed page preserves the invariant. -/
theorem inv_fd_terminal_general (p : OrchParams) (s s' : OrchState)
    (ctx page : ℕ) (prFlows : List ℕ) (hinv : OrchInv p s)
    (hctxs : ctxsFor s.log page = prFlows ++ [ctx])
    (hnd : (prFlows ++ [ctx]).Nodup)
    (hlen : prFlows.length = p.retryLimit)
    (hcount : handleCount s.pendingRetries s.queue page = 0)
    (hfail : s.failedPageList.count page = 0)
    (hlog : s'.log = s.log) (hnp : s'.nextPage = s.nextPage)
    (hpr : s'.pendingRetries = s.pendingRetries)
    (hq : s'.queue = s.queue ++ [.startFlows])
    (hff : s'.failedPageList = insertSet page s.failedPageList)
    (hr : s'.nextRid = s.nextRid) :
    OrchInv p s' := by
  have hnotmem : page ∉ s.failedPageList := count_zero_not_mem _ _ hfail
  have hins : insertSet page s.failedPageList = s.failedPageList ++ [page] := by
    unfold insertSet
    rw [if_neg hnotmem]
  refine ⟨?_, ?_, ?_, ?_, ?_, ?_, ?_, ?_⟩
  · rw [hlog, hnp]; exact hinv.pagesLt
  · rw [hpr, hlog]; exact hinv.prOk
  · rw [hq, hlog]
    intro c r' hmem
    rcases List.mem_append.mp hmem with h | h
    · exact hinv.wakeOk c r' h
    · exact OrchTask.noConfusion (List.mem_singleton.mp h)
  · rw [hq, hlog]
    intro c aL pg fl hmem
    rcases List.mem_append.mp hmem with h | h
    · exact hinv.fdOk c aL pg fl h
    · exact OrchTask.noConfusion (List.mem_singleton.mp h)
  · rw [hff, hins, hlog]
    intro q hqm
    rcases List.mem_append.mp hqm with h | h
    · exact hinv.failedOk q h
    · rw [List.mem_singleton.mp h, hctxs]
      constructor
      · simp [hlen]
      · exact hnd
  · rw [hpr, hq, hff, hins]
    intro q
    rw [handleCount_append_task]
    have hsf : taskHandlePage OrchTask.startFlows = none := rfl
    rw [hsf]
    have h0 : (if (none : Option ℕ) = some q then 1 else 0) = 0 := by simp
    rw [h0, List.count_append]
    by_cases hq2 : page = q
    · subst hq2
      have h1 : List.count page [page] = 1 := by simp
      rw [h1]
      omega
    · have h1 : List.count q [page] = 0 := by
        simp [List.count_cons, hq2]
      rw [h1]
      have := hinv.counts q
      omega
  · rw [hpr]; exact hinv.ridsNodup
  · rw [hpr, hr]; exact hinv.ridLt

/-- The retryable-failure branch of the fetch continuation, in equation
form: queueing the retry record (with the attempting context added to its
visited set) preserves the invariant. -/
theorem inv_fd_retryable_general (p : OrchParams) (s s' : OrchState)
    (ctx aL page : ℕ) (prFlows : List ℕ) (hinv : OrchInv p s)
    (hctxs : ctxsFor s.log page = prFlows ++ [ctx])
    (hnd : (prFlows ++ [ctx]).Nodup)
    (haL : aL + prFlows.length = p.retryLimit) (hpos : 0 < aL)
    (hcount : handleCount s.pendingRetries s.queue page = 0)
    (hfail : s.failedPageList.count page = 0)
    (hlog : s'.log = s.log) (hnp : s'.nextPage = s.nextPage)
    (hprq : s'.pendingRetries = s.pendingRetries ++
      [⟨s.nextRid, page, insertSet ctx prFlows, aL - 1⟩])
    (hq : s'.queue = s.queue ++ [.startFlows])
    (hf : s'.failedPageList = s.failedPageList)
    (hr : s'.nextRid = s.nextRid + 1) :
    OrchInv p s' := by
  have hctx : ctx ∉ prFlows := by
    rw [List.nodup_append] at hnd
    exact fun hm => hnd.2.2 hm (List.mem_singleton_self _)
  have hins : insertSet ctx prFlows = prFlows ++ [ctx] := by
    unfold insertSet
    rw [if_neg hctx]
  have hnd2 : (prFlows ++ [ctx]).Nodup := hnd
  refine ⟨?_, ?_, ?_, ?_, ?_, ?_, ?_, ?_⟩
  · rw [hlog, hnp]; exact hinv.pagesLt
  · rw [hprq, hlog]
    intro r hmem
    rcases List.mem_append.mp hmem with h | h
    · exact hinv.prOk r h
    · rw [List.mem_singleton.mp h]
      dsimp only
      refine ⟨?_, ?_, ?_, ?_⟩
      · rw [hins, hctxs]
      · rw [hins]
        simp
      · rw [hins]
        exact hnd2
      · rw [hins]
        rw [List.length_append]
        simp only [List.length_singleton]
        omega
  · rw [hq, hlog]
    intro c r' hmem
    rcases List.mem_append.mp hmem with h | h
    · exact hinv.wakeOk c r' h
    · exact OrchTask.noConfusion (List.mem_singleton.mp h)
  · rw [hq, hlog]
    intro c aL2 pg fl hmem
    rcases List.mem_append.mp hmem with h | h
    · exact hinv.fdOk c aL2 pg fl h
    · exact OrchTask.noConfusion (List.mem_singleton.mp h)
  · rw [hf, hlog]; exact hinv.failedOk
  · rw [hprq, hq, hf]
    intro q
    rw [handleCount_append_task]
    have hsf : taskHandlePage OrchTask.startFlows = none := rfl
    rw [hsf]
    have h0 : (if (none : Option ℕ) = some q then 1 else 0) = 0 := by simp
    rw [h0, handleCount_middle_pr, List.append_nil]
    dsimp only
    by_cases hq2 : page = q
    · subst hq2
      rw [if_pos rfl]
      omega
    · rw [if_neg hq2]
      have := hinv.counts q
      omega
  · rw [hprq, List.map_append]
    simp only [List.map_cons, List.map_nil]
    rw [List.nodup_append]
    refine ⟨hinv.ridsNodup, List.nodup_singleton _, ?_⟩
    intro y hy hy2
    obtain ⟨x, hx, hxy⟩ := List.mem_map.mp hy
    have hlt := hinv.ridLt x hx
    have hyr : y = s.nextRid := List.mem_singleton.mp hy2
    subst hxy
    omega
  · rw [hprq, hr]
    intro r hmem
    rcases List.mem_append.mp hmem with h | h
    · have := hinv.ridLt r h
      omega
    · rw [List.mem_singleton.mp h]
      exact Nat.lt_succ_self _

/-- The fetch continuation preserves the invariant, under the handle facts
of the settled fetch. -/
theorem inv_runFetchDone (p : OrchParams) (s : OrchState)
    (ctx aL page : ℕ) (prFlows : List ℕ) (hinv : OrchInv p s)
    (hctxs : ctxsFor s.log page = prFlows ++ [ctx])
    (hnd : (prFlows ++ [ctx]).Nodup)
    (haL : aL + prFlows.length = p.retryLimit)
    (hcount : handleCount s.pendingRetries s.queue page = 0)
    (hfail : s.failedPageList.count page = 0) :
    OrchInv p (runFetchDone p s ctx aL page prFlows) := by
  unfold runFetchDone
  dsimp only
  by_cases hok : p.fetchOk page (p.retryLimit - aL) = true
  · rw [if_pos hok, if_pos hok]
    exact inv_append_task_nohandle p s _ OrchTask.startFlows hinv rfl
      rfl rfl rfl rfl rfl rfl
  · rw [if_neg hok, if_neg hok]
    by_cases haL0 : aL = 0
    · subst haL0
      rw [if_pos rfl]
      have hlen : prFlows.length = p.retryLimit := by omega
      rw [if_neg (lt_irrefl 0)]
      split
      · exact inv_fd_terminal_general p s _ ctx page prFlows hinv hctxs hnd
          hlen hcount hfail rfl rfl rfl rfl rfl rfl
      · exact inv_fd_terminal_general p s _ ctx page prFlows hinv hctxs hnd
          hlen hcount hfail rfl rfl rfl rfl rfl rfl
    · rw [if_neg haL0, if_pos (Nat.pos_of_ne_zero haL0)]
      exact inv_fd_retryable_general p s _ ctx aL page prFlows hinv hctxs hnd
        haL (Nat.pos_of_ne_zero haL0) hcount hfail rfl rfl rfl rfl rfl rfl

/-- Stealing a context from a queued entry changes no entry ids. -/
theorem rqEraseAvail_rids (q : List RetryQueueEntry) (rid c : ℕ) :
    (rqEraseAvail q rid c).map RetryQueueEntry.rid
      = q.map RetryQueueEntry.rid := by
  unfold rqEraseAvail
  rw [List.map_map]
  apply List.map_congr_left
  intro e _
  by_cases h : e.rid = rid <;> simp [Function.comp, h]

/-- Stealing a context from a queued entry keeps every entry well formed:
an available set only shrinks. -/
theorem rqEraseAvail_ok (prs : List PendingRetry) (q : List RetryQueueEntry)
    (rid c : ℕ) (hq : ∀ e ∈ q, EntryOkP prs e) :
    ∀ e ∈ rqEraseAvail q rid c, EntryOkP prs e := by
  intro e he
  unfold rqEraseAvail at he
  obtain ⟨e₀, he₀, hmap⟩ := List.mem_map.mp he
  have h₀ := hq e₀ he₀
  by_cases h : e₀.rid = rid
  · rw [if_pos h] at hmap
    rw [← hmap]
    exact ⟨h₀.1, h₀.2.1, fun x hx => h₀.2.2 x (List.mem_of_mem_erase hx)⟩
  · rw [if_neg h] at hmap
    rw [← hmap]
    exact h₀

/-- The claiming loop changes no ids in the retry queue. -/
theorem claimLoop_rids (myRid : ℕ) (cs : List ℕ) :
    ∀ (q : List RetryQueueEntry) (m : List (ℕ × ℕ)) (acc : List ℕ),
      (claimLoop myRid cs q m acc).1.map RetryQueueEntry.rid
        = q.map RetryQueueEntry.rid := by
  induction cs with
  | nil =>
    intro q m acc
    unfold claimLoop
    rfl
  | cons c cs ih =>
    intro q m acc
    unfold claimLoop
    cases hm : m.lookup c with
    | some otherRid =>
      dsimp only
      split
      · exact ih q m acc
      · rw [ih]
        exact rqEraseAvail_rids q otherRid c
    | none =>
      dsimp only
      exact ih _ _ _

/-- The claiming loop keeps every queue entry well formed. -/
theorem claimLoop_entries_ok (prs : List PendingRetry) (myRid : ℕ)
    (cs : List ℕ) :
    ∀ (q : List RetryQueueEntry) (m : List (ℕ × ℕ)) (acc : List ℕ),
      (∀ e ∈ q, EntryOkP prs e) →
      ∀ e ∈ (claimLoop myRid cs q m acc).1, EntryOkP prs e := by
  induction cs with
  | nil =>
    intro q m acc hq
    unfold claimLoop
    exact hq
  | cons c cs ih =>
    intro q m acc hq
    unfold claimLoop
    cases hm : m.lookup c with
    | some otherRid =>
      dsimp only
      split
      · exact ih q m acc hq
      · exact ih _ _ _ (rqEraseAvail_ok prs q otherRid c hq)
    | none =>
      dsimp only
      exact ih _ _ _ hq

/-- Every context the claiming loop claims comes from its accumulator or
its candidate list. -/
theorem claimLoop_acc_sub (myRid : ℕ) (cs : List ℕ) :
    ∀ (q : List RetryQueueEntry) (m : List (ℕ × ℕ)) (acc : List ℕ),
      ∀ x ∈ (claimLoop myRid cs q m acc).2.2, x ∈ acc ∨ x ∈ cs := by
  induction cs with
  | nil =>
    intro q m acc x hx
    unfold claimLoop at hx
    exact Or.inl hx
  | cons c cs ih =>
    intro q m acc x hx
    unfold claimLoop at hx
    cases hm : m.lookup c with
    | some otherRid =>
      rw [hm] at hx
      dsimp only at hx
      by_cases hb : (rqGetAvail q otherRid).length ≤ 1
      · rw [if_pos hb] at hx
        rcases ih q m acc x hx with h | h
        · exact Or.inl h
        · exact Or.inr (List.mem_cons_of_mem _ h)
      · rw [if_neg hb] at hx
        rcases ih _ _ _ x hx with h | h
        · rcases List.mem_append.mp h with h2 | h2
          · exact Or.inl h2
          · have hxc := List.mem_singleton.mp h2
            exact Or.inr (hxc ▸ List.mem_cons_self c cs)
        · exact Or.inr (List.mem_cons_of_mem _ h)
    | none =>
      rw [hm] at hx
      dsimp only at hx
      rcases ih _ _ _ x hx with h | h
      · rcases List.mem_append.mp h with h2 | h2
        · exact Or.inl h2
        · have hxc := List.mem_singleton.mp h2
          exact Or.inr (hxc ▸ List.mem_cons_self c cs)
      · exact Or.inr (List.mem_cons_of_mem _ h)

/-- The retry-queue builder, under enough contexts (no retry has visited
them all): it never resets a visited set — the pending-retry list comes
back unchanged — and every queued entry is a well-formed snapshot of a
pending retry, with pairwise distinct entry ids. -/
theorem buildRQ_spec (nCtx : ℕ) (freeCtxs : List ℕ)
    (prs0 : List PendingRetry) (rl : List PendingRetry) :
    ∀ (q0 : List RetryQueueEntry) (m : List (ℕ × ℕ)) (fl : ℕ),
      (∀ r ∈ rl, r.flows.length < nCtx) →
      (∀ r ∈ rl, r ∈ prs0) →
      (∀ e ∈ q0, EntryOkP prs0 e) →
      ((q0.map RetryQueueEntry.rid) ++ rl.map PendingRetry.rid).Nodup →
      (buildRQ nCtx freeCtxs rl q0 m fl).1 = rl ∧
      (∀ e ∈ (buildRQ nCtx freeCtxs rl q0 m fl).2.1, EntryOkP prs0 e) ∧
      ((buildRQ nCtx freeCtxs rl q0 m fl).2.1.map RetryQueueEntry.rid).Nodup := by
  induction rl with
  | nil =>
    intro q0 m fl _ _ hq0 hnd
    unfold buildRQ
    exact ⟨rfl, hq0, by simpa using hnd⟩
  | cons r rest ih =>
    intro q0 m fl hlen hsub hq0 hnd
    have hr1 : ¬(nCtx ≤ r.flows.length) := by
      have := hlen r (List.mem_cons_self r rest)
      omega
    unfold buildRQ
    rw [if_neg hr1, if_neg hr1]
    dsimp only
    have hcl_rids := claimLoop_rids r.rid
      (freeCtxs.filter (fun c => c ∉ r.flows)) q0 m []
    have hcl_ok := claimLoop_entries_ok prs0 r.rid
      (freeCtxs.filter (fun c => c ∉ r.flows)) q0 m [] hq0
    have hcl_acc := claimLoop_acc_sub r.rid
      (freeCtxs.filter (fun c => c ∉ r.flows)) q0 m []
    have hnd_head : r.rid ∉ q0.map RetryQueueEntry.rid ∧
        r.rid ∉ rest.map PendingRetry.rid := by
      rw [List.map_cons] at hnd
      constructor
      · intro hmem
        have h1 := (List.nodup_append.mp hnd).2.2
        exact h1 hmem (List.mem_cons_self _ _)
      · have h2 := (List.nodup_append.mp hnd).2.1
        exact (List.nodup_cons.mp h2).1
    by_cases hemp :
        ((claimLoop r.rid (freeCtxs.filter (fun c => c ∉ r.flows)) q0 m
          []).2.2).isEmpty = true
    · rw [if_pos hemp]
      dsimp only
      have hnd' : (((claimLoop r.rid (freeCtxs.filter (fun c => c ∉ r.flows))
          q0 m []).1.map RetryQueueEntry.rid)
            ++ rest.map PendingRetry.rid).Nodup := by
        rw [hcl_rids]
        rw [List.map_cons] at hnd
        refine List.Nodup.sublist ?_ hnd
        exact List.Sublist.append_left (List.sublist_cons_self _ _) _
      obtain ⟨ih1, ih2, ih3⟩ := ih _ _ fl
        (fun x hx => hlen x (List.mem_cons_of_mem _ hx))
        (fun x hx => hsub x (List.mem_cons_of_mem _ hx)) hcl_ok hnd'
      exact ⟨by rw [ih1], ih2, ih3⟩
    · rw [if_neg hemp]
      have hnew_ok : EntryOkP prs0
          ⟨r.rid, r, (claimLoop r.rid (freeCtxs.filter (fun c => c ∉ r.flows))
            q0 m []).2.2⟩ := by
        refine ⟨hsub r (List.mem_cons_self r rest), rfl, ?_⟩
        intro c hc
        rcases hcl_acc c hc with h | h
        · exact absurd h (List.not_mem_nil c)
        · have h2 := List.mem_filter.mp h
          simpa using h2.2
      have hq1_ok : ∀ e ∈ (claimLoop r.rid
            (freeCtxs.filter (fun c => c ∉ r.flows)) q0 m []).1 ++
          [(⟨r.rid, r, (claimLoop r.rid (freeCtxs.filter (fun c => c ∉ r.flows))
            q0 m []).2.2⟩ : RetryQueueEntry)], EntryOkP prs0 e := by
        intro e he
        rcases List.mem_append.mp he with h | h
        · exact hcl_ok e h
        · rw [List.mem_singleton.mp h]
          exact hnew_ok
      have hq1_rids : ((claimLoop r.rid
            (freeCtxs.filter (fun c => c ∉ r.flows)) q0 m []).1 ++
          [(⟨r.rid, r, (claimLoop r.rid (freeCtxs.filter (fun c => c ∉ r.flows))
            q0 m []).2.2⟩ : RetryQueueEntry)]).map RetryQueueEntry.rid
          = q0.map RetryQueueEntry.rid ++ [r.rid] := by
        rw [List.map_append, hcl_rids]
        rfl
      have hq1_nodup : (((claimLoop r.rid
            (freeCtxs.filter (fun c => c ∉ r.flows)) q0 m []).1 ++
          [(⟨r.rid, r, (claimLoop r.rid (freeCtxs.filter (fun c => c ∉ r.flows))
            q0 m []).2.2⟩ : RetryQueueEntry)]).map RetryQueueEntry.rid).Nodup := by
        rw [hq1_rids]
        rw [List.map_cons] at hnd
        refine List.Nodup.sublist ?_ hnd
        exact List.Sublist.append_left
          ((List.nil_sublist _).cons₂ _) _
      by_cases hfl : fl - 1 = 0
      · rw [if_pos hfl]
        dsimp only
        exact ⟨rfl, hq1_ok, hq1_nodup⟩
      · rw [if_neg hfl]
        dsimp only
        have hnd2 : (((claimLoop r.rid
              (freeCtxs.filter (fun c => c ∉ r.flows)) q0 m []).1 ++
            [(⟨r.rid, r, (claimLoop r.rid (freeCtxs.filter
              (fun c => c ∉ r.flows)) q0 m []).2.2⟩ : RetryQueueEntry)]).map RetryQueueEntry.rid
              ++ rest.map PendingRetry.rid).Nodup := by
          rw [hq1_rids, List.append_assoc]
          rw [List.map_cons] at hnd
          exact hnd
        obtain ⟨ih1, ih2, ih3⟩ := ih _ _ (fl - 1)
          (fun x hx => hlen x (List.mem_cons_of_mem _ hx))
          (fun x hx => hsub x (List.mem_cons_of_mem _ hx)) hq1_ok hnd2
        exact ⟨by rw [ih1], ih2, ih3⟩

/-- Splicing one pending retry out of the list preserves the invariant. -/
theorem inv_erase_middle_pr (p : OrchParams) (s : OrchState)
    (l₁ l₂ : List PendingRetry) (r : PendingRetry) (hinv : OrchInv p s)
    (hdec : s.pendingRetries = l₁ ++ r :: l₂) :
    OrchInv p { s with pendingRetries := l₁ ++ l₂ } := by
  have hmem : ∀ x ∈ l₁ ++ l₂, x ∈ s.pendingRetries := by
    intro x hx
    rw [hdec]
    rcases List.mem_append.mp hx with h | h
    · exact List.mem_append.mpr (Or.inl h)
    · exact List.mem_append.mpr (Or.inr (List.mem_cons_of_mem _ h))
  refine ⟨hinv.pagesLt, ?_, hinv.wakeOk, hinv.fdOk, hinv.failedOk, ?_, ?_, ?_⟩
  · intro x hx
    exact hinv.prOk x (hmem x hx)
  · intro q
    dsimp only
    have h1 := hinv.counts q
    rw [hdec, handleCount_middle_pr] at h1
    by_cases hq2 : r.page = q
    · rw [if_pos hq2] at h1
      omega
    · rw [if_neg hq2] at h1
      omega
  · dsimp only
    have hsubl : (l₁ ++ l₂).Sublist (l₁ ++ r :: l₂) :=
      List.Sublist.append_left (List.sublist_cons_self r l₂) l₁
    have h3 := hinv.ridsNodup
    rw [hdec] at h3
    exact h3.sublist (hsubl.map _)
  · dsimp only
    intro x hx
    exact hinv.ridLt x (hmem x hx)

/-- Popping one task out of the queue preserves the invariant. -/
theorem inv_erase_middle_task (p : OrchParams) (s : OrchState)
    (l₁ l₂ : List OrchTask) (t : OrchTask) (hinv : OrchInv p s)
    (hdec : s.queue = l₁ ++ t :: l₂) :
    OrchInv p { s with queue := l₁ ++ l₂ } := by
  have hmem : ∀ x ∈ l₁ ++ l₂, x ∈ s.queue := by
    intro x hx
    rw [hdec]
    rcases List.mem_append.mp hx with h | h
    · exact List.mem_append.mpr (Or.inl h)
    · exact List.mem_append.mpr (Or.inr (List.mem_cons_of_mem _ h))
  refine ⟨hinv.pagesLt, hinv.prOk, ?_, ?_, hinv.failedOk, ?_, hinv.ridsNodup,
    hinv.ridLt⟩
  · dsimp only
    intro c r hm
    exact hinv.wakeOk c r (hmem _ hm)
  · dsimp only
    intro c aL pg fl hm
    exact hinv.fdOk c aL pg fl (hmem _ hm)
  · dsimp only
    intro q
    have h1 := hinv.counts q
    rw [hdec, handleCount_middle_task] at h1
    by_cases hq2 : taskHandlePage t = some q
    · rw [if_pos hq2] at h1
      omega
    · rw [if_neg hq2] at h1
      omega

/-- Dispatching the queued retries preserves the invariant, when each
entry is a well-formed snapshot of a pending retry and the entry ids are
pairwise distinct. -/
theorem inv_dispatchRetries (p : OrchParams) (es : List RetryQueueEntry) :
    ∀ (s : OrchState) (fc : List ℕ), OrchInv p s →
      (∀ e ∈ es, EntryOkP s.pendingRetries e) →
      (es.map RetryQueueEntry.rid).Nodup →
      OrchInv p (dispatchRetries p es s fc).1 := by
  induction es with
  | nil =>
    intro s fc hinv _ _
    exact hinv
  | cons e es ih =>
    intro s fc hinv hes hrids
    unfold dispatchRetries
    cases hhead : e.avail.head? with
    | none =>
      dsimp only
      exact inv_of_eqs p s _ hinv rfl rfl rfl rfl rfl rfl
    | some ctx =>
      dsimp only
      obtain ⟨hepr, herid, havail⟩ := hes e (List.mem_cons_self e es)
      obtain ⟨hc, hne, hnd, haL⟩ := hinv.prOk e.pr hepr
      have hctxmem : ctx ∈ e.avail := List.mem_of_mem_head? hhead
      have hctxf : ctx ∉ e.pr.flows := havail ctx hctxmem
      obtain ⟨l₁, l₂, hdec, herase⟩ :=
        eraseP_rid_decomp s.pendingRetries e.pr hepr hinv.ridsNodup
      have herase2 : s.pendingRetries.eraseP (fun r => r.rid = e.rid)
          = l₁ ++ l₂ := by
        rw [herid]
        exact herase
      have hcount1 := hinv.counts e.pr.page
      rw [hdec, handleCount_middle_pr, if_pos rfl] at hcount1
      have hcz : handleCount (l₁ ++ l₂) s.queue e.pr.page = 0 := by omega
      have hfz : s.failedPageList.count e.pr.page = 0 := by omega
      have hinv1 : OrchInv p { s with pendingRetries := l₁ ++ l₂ } :=
        inv_erase_middle_pr p s l₁ l₂ e.pr hinv hdec
      rw [herase2]
      have hinv2 : OrchInv p { s with pendingRetries := l₁ ++ l₂, flows := insertSet ctx s.flows } :=
        inv_of_eqs p { s with pendingRetries := l₁ ++ l₂ } _ hinv1 rfl rfl rfl
          rfl rfl rfl
      have hinv3 := inv_hfeStart_retry p
        { s with pendingRetries := l₁ ++ l₂, flows := insertSet ctx s.flows }
        ctx e.pr hinv2 hc hne hnd haL hctxf hcz hfz
      have hrids2 := hrids
      rw [List.map_cons, List.nodup_cons] at hrids2
      have hes2 : ∀ x ∈ es, EntryOkP ((hfeStart p
          { s with pendingRetries := l₁ ++ l₂, flows := insertSet ctx s.flows } ctx
          (some e.pr)).pendingRetries) x := by
        rw [hfeStart_pendingRetries]
        intro x hx
        obtain ⟨hp, hr2, ha⟩ := hes x (List.mem_cons_of_mem _ hx)
        have hne2 : ¬(x.pr.rid = e.pr.rid) := by
          intro hh
          have h5 : e.rid = x.rid := by
            rw [herid, ← hh, ← hr2]
          have h6 : e.rid ∈ es.map RetryQueueEntry.rid := by
            rw [h5]
            exact List.mem_map_of_mem _ hx
          exact hrids2.1 h6
        have hp2 : x.pr ∈ l₁ ++ l₂ := by
          rw [← herase]
          exact mem_eraseP_rid s.pendingRetries x.pr e.pr.rid hp hne2
        exact ⟨hp2, hr2, ha⟩
      exact ih _ _ hinv3 hes2 hrids2.2

/-- Dispatching fresh tasks preserves the invariant under the
distinct-flows policy (no retry is shifted off the pending list). -/
theorem inv_dispatchFresh (p : OrchParams) (cs : List ℕ) :
    ∀ (fl : ℕ) (s : OrchState), p.retryDistinctFlows = true → OrchInv p s →
      OrchInv p (dispatchFresh p cs fl s) := by
  induction cs with
  | nil =>
    intro fl s _ hinv
    exact hinv
  | cons c cs ih =>
    intro fl s hd hinv
    unfold dispatchFresh
    rw [if_pos hd]
    dsimp only
    split
    · exact hinv
    · have hinv1 : OrchInv p { s with flows := insertSet c s.flows } :=
        inv_of_eqs p s _ hinv rfl rfl rfl rfl rfl rfl
      have hinv2 := inv_hfeStart_fresh p _ c hinv1
      split
      · exact hinv2
      · exact ih _ _ hd hinv2

/-- One `startFlows` run preserves the invariant, under the distinct-flows
policy with enough contexts. -/
theorem inv_runStartFlows (p : OrchParams) (s : OrchState)
    (hd : p.retryDistinctFlows = true) (hcap : p.retryLimit + 1 ≤ p.nCtx)
    (hinv : OrchInv p s) : OrchInv p (runStartFlows p s) := by
  unfold runStartFlows
  by_cases h1 : s.resolved = true
  · rw [if_pos h1]
    exact hinv
  · rw [if_neg h1]
    by_cases h2 : (s.executorDone && s.flows.isEmpty && s.pendingRetries.isEmpty)
        = true
    · rw [if_pos h2]
      exact inv_of_eqs p s _ hinv rfl rfl rfl rfl rfl rfl
    · rw [if_neg h2]
      by_cases h3 : effectiveConcurrency p s ≤ s.flows.length
      · rw [if_pos h3]
        exact hinv
      · rw [if_neg h3]
        dsimp only
        rw [if_pos hd]
        set fcs := (List.range p.nCtx).filter (fun c => c ∉ s.flows) with hfcs
        set fl := effectiveConcurrency p s - s.flows.length with hflw
        set b := buildRQ p.nCtx fcs s.pendingRetries [] [] fl with hb
        have hlen : ∀ r ∈ s.pendingRetries, r.flows.length < p.nCtx := by
          intro r hr
          have := (hinv.prOk r hr).2.2.2
          omega
        obtain ⟨hb1, hb2, hb3⟩ := buildRQ_spec p.nCtx fcs s.pendingRetries
          s.pendingRetries [] [] fl hlen (fun r hr => hr)
          (fun e he => absurd he (List.not_mem_nil e))
          (by simpa using hinv.ridsNodup)
        rw [← hb] at hb1 hb2 hb3
        have hinv1 : OrchInv p { s with pendingRetries := b.1 } :=
          inv_of_eqs p s _ hinv rfl rfl hb1 rfl rfl rfl
        have hes : ∀ e ∈ b.2.1,
            EntryOkP ({ s with pendingRetries := b.1 } : OrchState).pendingRetries
              e := by
          intro e he
          have h4 := hb2 e he
          dsimp only
          rw [hb1]
          exact h4
        have hdisp := inv_dispatchRetries p b.2.1
          { s with pendingRetries := b.1 } fcs hinv1 hes hb3
        split
        · exact hdisp
        · split
          · exact hdisp
          · exact inv_dispatchFresh p _ _ _ hd hdisp

/-- One event-loop step preserves the invariant. -/
theorem inv_orchStep (p : OrchParams) (s : OrchState)
    (hd : p.retryDistinctFlows = true) (hcap : p.retryLimit + 1 ≤ p.nCtx)
    (hinv : OrchInv p s) : OrchInv p (orchStep p s) := by
  unfold orchStep
  by_cases h1 : p.abortAt = some s.stepIdx
  · rw [if_pos h1]
    exact inv_of_eqs p s _ hinv rfl rfl rfl rfl rfl rfl
  · rw [if_neg h1]
    dsimp only
    cases hq : s.queue with
    | nil =>
      dsimp only
      exact inv_of_eqs p s _ hinv rfl rfl rfl hq.symm rfl rfl
    | cons t0 rest =>
      dsimp only
      have hlenq : p.pick (s.stepIdx + 1) % (t0 :: rest).length
          < (t0 :: rest).length := Nat.mod_lt _ (by simp)
      obtain ⟨l₁, l₂, hdec, herase⟩ := popAt_decomp (t0 :: rest)
        (p.pick (s.stepIdx + 1) % (t0 :: rest).length) hlenq
      rw [herase]
      have hdecs : s.queue = l₁ ++ ((t0 :: rest).getD
          (p.pick (s.stepIdx + 1) % (t0 :: rest).length) .startFlows) :: l₂ := by
        rw [hq]
        exact hdec
      have hinv1 : OrchInv p { s with queue := l₁ ++ l₂ } :=
        inv_erase_middle_task p s l₁ l₂ _ hinv hdecs
      have hinv2 : OrchInv p { s with stepIdx := s.stepIdx + 1, queue := l₁ ++ l₂ } :=
        inv_of_eqs p { s with queue := l₁ ++ l₂ } _ hinv1 rfl rfl rfl rfl rfl rfl
      have htmem : ((t0 :: rest).getD
          (p.pick (s.stepIdx + 1) % (t0 :: rest).length) .startFlows)
          ∈ s.queue := by
        rw [hdecs]
        exact List.mem_append.mpr (Or.inr (List.mem_cons_self _ _))
      cases ht : (t0 :: rest).getD
          (p.pick (s.stepIdx + 1) % (t0 :: rest).length) .startFlows with
      | startFlows =>
        exact inv_runStartFlows p _ hd hcap hinv2
      | wake ctx pr =>
        cases pr with
        | none =>
          exact inv_runWake_none p _ ctx hinv2
        | some r =>
          rw [ht] at htmem hdecs
          have hw := hinv.wakeOk ctx r htmem
          have hcount1 := hinv.counts r.page
          rw [hdecs, handleCount_middle_task] at hcount1
          have hth : taskHandlePage (OrchTask.wake ctx (some r)) = some r.page :=
            rfl
          rw [hth, if_pos rfl] at hcount1
          have hcz : handleCount s.pendingRetries (l₁ ++ l₂) r.page = 0 := by
            omega
          have hfz : s.failedPageList.count r.page = 0 := by omega
          exact inv_runWake_some p _ ctx r hinv2 hw.1 hw.2.1 hw.2.2.1
            hw.2.2.2.1 hw.2.2.2.2 hcz hfz
      | fetchDone ctx aL page fl =>
        rw [ht] at htmem hdecs
        have hf := hinv.fdOk ctx aL page fl htmem
        have hcount1 := hinv.counts page
        rw [hdecs, handleCount_middle_task] at hcount1
        have hth : taskHandlePage (OrchTask.fetchDone ctx aL page fl)
            = some page := rfl
        rw [hth, if_pos rfl] at hcount1
        have hcz : handleCount s.pendingRetries (l₁ ++ l₂) page = 0 := by omega
        have hfz : s.failedPageList.count page = 0 := by omega
        exact inv_runFetchDone p _ ctx aL page fl hinv2 hf.1 hf.2.1 hf.2.2
          hcz hfz

/-- Any number of event-loop steps preserves the invariant. -/
theorem inv_runOrch (p : OrchParams) (fuel : ℕ) :
    ∀ s : OrchState, p.retryDistinctFlows = true →
      p.retryLimit + 1 ≤ p.nCtx → OrchInv p s →
      OrchInv p (runOrch p fuel s) := by
  induction fuel with
  | zero =>
    intro s _ _ hinv
    exact hinv
  | succ n ih =>
    intro s hd hcap hinv
    exact ih _ hd hcap (inv_orchStep p s hd hcap hinv)

/-- The invariant holds at the start of a cycle. -/
theorem inv_initOrchState (p : OrchParams) : OrchInv p (initOrchState p) := by
  refine ⟨?_, ?_, ?_, ?_, ?_, ?_, ?_, ?_⟩
  · intro e he
    exact absurd he (List.not_mem_nil e)
  · intro r hr
    exact absurd hr (List.not_mem_nil r)
  · intro c r hm
    exact OrchTask.noConfusion (List.mem_singleton.mp hm)
  · intro c aL pg fl hm
    exact OrchTask.noConfusion (List.mem_singleton.mp hm)
  · intro q hq
    exact absurd hq (List.not_mem_nil q)
  · intro q
    exact Nat.zero_le 1
  · exact List.nodup_nil
  · intro r hr
    exact absurd hr (List.not_mem_nil r)

/-- Claim C5: when `retryDistinctFlows = true` and the number of flow
contexts is at least `retryLimit + 1` (contexts unchanged during the
cycle), every page that is declared failed was attempted exactly
`retryLimit + 1` times, each attempt dispatched on a distinct flow
context. -/
theorem retryDistinct_failed_pages (p : OrchParams) (fuel : ℕ)
    (hd : p.retryDistinctFlows = true)
    (hcap : p.retryLimit + 1 ≤ p.nCtx) :
    ∀ q ∈ (runOrch p fuel (initOrchState p)).failedPageList,
      (ctxsFor (runOrch p fuel (initOrchState p)).log q).length
        = p.retryLimit + 1 ∧
      (ctxsFor (runOrch p fuel (initOrchState p)).log q).Nodup :=
  (inv_runOrch p fuel (initOrchState p) hd hcap (inv_initOrchState p)).failedOk

/-- Witness for claim C5: in the page-2-fails scenario (3 contexts,
retry limit 2), page 2 ends on the failed-page list after exactly 3
attempts on pairwise distinct contexts. -/
theorem retryDistinct_failed_pages_witness :
    paramsPage2Fails.retryDistinctFlows = true ∧
    paramsPage2Fails.retryLimit + 1 ≤ paramsPage2Fails.nCtx ∧
    2 ∈ (runOrch paramsPage2Fails 40
      (initOrchState paramsPage2Fails)).failedPageList ∧
    ((ctxsFor (runOrch paramsPage2Fails 40
        (initOrchState paramsPage2Fails)).log 2).length
      = paramsPage2Fails.retryLimit + 1 ∧
      (ctxsFor (runOrch paramsPage2Fails 40
        (initOrchState paramsPage2Fails)).log 2).Nodup) :=
  ⟨rfl, by decide, by decide,
    retryDistinct_failed_pages paramsPage2Fails 40 rfl (by decide) 2 (by decide)⟩
